import Mathlib

set_option maxRecDepth 4000

/-!
Verification of the routing core of `projects/toilets/src/path_finder.py`.

The Python source is shallowly embedded below.  Conventions used throughout:

* Python `float` values are rationals, so `Coordinate` carries `ℚ` fields;
  the idealized real-valued haversine distance (`Coordinate.distance_to`)
  is modelled over `ℝ`.
* The algorithms of the source never branch on anything but order
  comparisons of distance values, so the functions that consume distances
  are generic in the distance codomain `β`, instantiated with `ℝ` (the
  true haversine) for the metric-sensitive statements and with `ℚ` for
  executable witnesses.  The comparison argument `lt` stands for Python's
  `<` on floats.
* Python `dict`s keyed by coordinates are association lists with
  insert-replaces-existing-key semantics; `set`s are lists used only
  through membership; exceptions (`KeyError`, `ValueError`, `IndexError`)
  are modelled by an `Option` result, `none` meaning the Python call
  raises.
* `while` loops are structural recursion on a fuel argument chosen large
  enough (the loop guards bound the iteration count by the number of
  locations, see the comments at each loop) that the fuel never runs out;
  the fuel-exhausted branch returns the same value as the guard-failure
  branch.
-/

/-- `Coordinate` from the source: an immutable latitude/longitude pair.
Python floats are rationals, hence the `ℚ` fields; equality and hashing
are by exact value, as in the frozen dataclass. -/
structure Coordinate where
  latitude : ℚ
  longitude : ℚ
deriving DecidableEq, Repr

/-- Rational literal given directly by its reduced fraction, as a raw
structure constructor.  All concrete decimals below are written through
this helper so that the kernel can evaluate comparisons on them (the
standard decimal-literal elaboration of `ℚ` is irreducible). -/
def ratc (num : Int) (den : ℕ) (den_nz : den ≠ 0) (red : num.natAbs.Coprime den) : ℚ :=
  ⟨num, den, den_nz, red⟩

/-- The origin coordinate, used only as an inert default element. -/
def coord0 : Coordinate :=
  ⟨ratc 0 1 (by norm_num) (by norm_num), ratc 0 1 (by norm_num) (by norm_num)⟩

/-- `RouteStep`: a directed edge of the route.  The lazily cached distance
of the source is a pure memoization of `distance_to` and is modelled by
recomputation (`total_distance` below). -/
structure RouteStep where
  coor_a : Coordinate
  coor_b : Coordinate
deriving DecidableEq, Repr

/-- `Route` from the source (`end` is a Lean keyword, so that field is
called `endp` here). -/
structure Route where
  start : Coordinate
  endp : Coordinate
  steps : List RouteStep
deriving DecidableEq, Repr

/-- The decimal bounding-box constants of `_get_borough`, written as
their exact reduced fractions.  `lit40_49` is the source's `40.49`,
`litm74_26` its `-74.26`, and so on. -/
def lit40_49 : ℚ := ratc 4049 100 (by norm_num) (by norm_num)

def lit40_65 : ℚ := ratc 813 20 (by norm_num) (by norm_num)

def litm74_26 : ℚ := ratc (-3713) 50 (by norm_num) (by norm_num)

def litm74_05 : ℚ := ratc (-1481) 20 (by norm_num) (by norm_num)

def lit40_70 : ℚ := ratc 407 10 (by norm_num) (by norm_num)

def lit40_88 : ℚ := ratc 1022 25 (by norm_num) (by norm_num)

def litm74_02 : ℚ := ratc (-3701) 50 (by norm_num) (by norm_num)

def litm73_91 : ℚ := ratc (-7391) 100 (by norm_num) (by norm_num)

def lit40_79 : ℚ := ratc 4079 100 (by norm_num) (by norm_num)

def lit40_92 : ℚ := ratc 1023 25 (by norm_num) (by norm_num)

def litm73_93 : ℚ := ratc (-7393) 100 (by norm_num) (by norm_num)

def litm73_75 : ℚ := ratc (-295) 4 (by norm_num) (by norm_num)

def lit40_57 : ℚ := ratc 4057 100 (by norm_num) (by norm_num)

def lit40_74 : ℚ := ratc 2037 50 (by norm_num) (by norm_num)

def litm74_04 : ℚ := ratc (-1851) 25 (by norm_num) (by norm_num)

def litm73_83 : ℚ := ratc (-7383) 100 (by norm_num) (by norm_num)

def lit40_54 : ℚ := ratc 2027 50 (by norm_num) (by norm_num)

def lit40_80 : ℚ := ratc 204 5 (by norm_num) (by norm_num)

def litm73_96 : ℚ := ratc (-1849) 25 (by norm_num) (by norm_num)

def litm73_70 : ℚ := ratc (-737) 10 (by norm_num) (by norm_num)

def lit40_82 : ℚ := ratc 2041 50 (by norm_num) (by norm_num)

def litm74_0 : ℚ := ratc (-74) 1 (by norm_num) (by norm_num)

/-- `PathFinderAlgo._get_borough`: classify a coordinate into a borough
by the source's if-chain of bounding boxes, with its fallback by
latitude/longitude. -/
def _get_borough (coord : Coordinate) : String :=
  let lat := coord.latitude
  let lon := coord.longitude
  if lit40_49 ≤ lat ∧ lat ≤ lit40_65 ∧ litm74_26 ≤ lon ∧ lon ≤ litm74_05 then "Staten Island"
  else if lit40_70 ≤ lat ∧ lat ≤ lit40_88 ∧ litm74_02 ≤ lon ∧ lon ≤ litm73_91 then "Manhattan"
  else if lit40_79 ≤ lat ∧ lat ≤ lit40_92 ∧ litm73_93 ≤ lon ∧ lon ≤ litm73_75 then "Bronx"
  else if lit40_57 ≤ lat ∧ lat ≤ lit40_74 ∧ litm74_04 ≤ lon ∧ lon ≤ litm73_83 then "Brooklyn"
  else if lit40_54 ≤ lat ∧ lat ≤ lit40_80 ∧ litm73_96 ≤ lon ∧ lon ≤ litm73_70 then "Queens"
  else if lat < lit40_65 then (if lon < litm74_05 then "Staten Island" else "Brooklyn")
  else if lat > lit40_82 then "Bronx"
  else if lon > litm74_0 then "Manhattan" else "Brooklyn"

/-- The set comprehension `staten_island_coords` of the source, as a list
used only through membership. -/
def staten_island_coords (locations : List Coordinate) : List Coordinate :=
  locations.filter (fun c => decide (_get_borough c = "Staten Island"))

/-- Lookup in a Python `dict` (association list, insertion order).
`none` models a `KeyError` at the call site. -/
def dictLookup {κ β : Type} [DecidableEq κ] (m : List (κ × β)) (k : κ) : Option β :=
  (m.find? (fun kv => decide (kv.1 = k))).map (fun kv => kv.2)

/-- `d[k] = v` on a Python `dict`: replace the value if the key is
present (keeping its position), else append the new binding. -/
def dictInsert {κ β : Type} [DecidableEq κ] (m : List (κ × β)) (k : κ) (v : β) :
    List (κ × β) :=
  if m.any (fun kv => decide (kv.1 = k)) then
    m.map (fun kv => if kv.1 = k then (k, v) else kv)
  else m ++ [(k, v)]

/-- Python compares the `(distance, coordinate)` tuples of the index
lexicographically; the coordinate component is only reached on equal
distances, where the source would raise `TypeError` (dataclass without
order), so every defined comparison is decided by the distance alone. -/
def entryLt {β : Type} (lt : β → β → Bool) (x y : β × Coordinate) : Bool :=
  lt x.1 y.1

/-- The inner `while` of CPython's `heapq._siftup` (`heapq.py`): walk the
smaller-child chain down from `pos`, shifting children up.  Structural
recursion on `fuel`; each iteration at least doubles `pos + 1` while
`pos < endpos`, so `fuel = endpos` suffices and the `0` branch is
unreachable from `_siftup` below. -/
def _siftupLoop {β : Type} (lt : β → β → Bool) (dflt : β × Coordinate) (endpos : ℕ)
    (fuel : ℕ) (heap : List (β × Coordinate)) (pos : ℕ) (newitem : β × Coordinate) :
    List (β × Coordinate) × ℕ :=
  match fuel with
  | 0 => (heap.set pos newitem, pos)
  | Nat.succ fuel =>
    let childpos := 2 * pos + 1
    if childpos < endpos then
      let rightpos := childpos + 1
      let childpos :=
        if rightpos < endpos
            && !(entryLt lt (heap.getD childpos dflt) (heap.getD rightpos dflt)) then
          rightpos
        else childpos
      _siftupLoop lt dflt endpos fuel (heap.set pos (heap.getD childpos dflt)) childpos newitem
    else (heap.set pos newitem, pos)

/-- The `while pos > startpos` of CPython's `heapq._siftdown`: bubble
`newitem` up toward `startpos`.  `pos` strictly decreases (each parent
index is smaller), so the fuel `pos + 1` supplied by `_siftdown` never
runs out and the `0` branch is unreachable. -/
def _siftdownLoop {β : Type} (lt : β → β → Bool) (dflt : β × Coordinate) :
    ℕ → List (β × Coordinate) → ℕ → ℕ → β × Coordinate → List (β × Coordinate)
  | 0, heap, _, pos, newitem => heap.set pos newitem
  | Nat.succ fuel, heap, startpos, pos, newitem =>
    if startpos < pos then
      let parentpos := (pos - 1) / 2
      let parent := heap.getD parentpos dflt
      if entryLt lt newitem parent then
        _siftdownLoop lt dflt fuel (heap.set pos parent) startpos parentpos newitem
      else heap.set pos newitem
    else heap.set pos newitem

/-- CPython's `heapq._siftdown`. -/
def _siftdown {β : Type} (lt : β → β → Bool) (dflt : β × Coordinate)
    (heap : List (β × Coordinate)) (startpos pos : ℕ) (newitem : β × Coordinate) :
    List (β × Coordinate) :=
  _siftdownLoop lt dflt (pos + 1) heap startpos pos newitem

/-- CPython's `heapq._siftup` at index `pos`. -/
def _siftup {β : Type} (lt : β → β → Bool) (dflt : β × Coordinate)
    (heap : List (β × Coordinate)) (pos : ℕ) : List (β × Coordinate) :=
  let endpos := heap.length
  let newitem := heap.getD pos dflt
  let r := _siftupLoop lt dflt endpos endpos heap pos newitem
  _siftdown lt dflt r.1 pos r.2 newitem

/-- CPython's `heapq.heapify`: `_siftup` at `n // 2 - 1, …, 0`.  The
result satisfies the binary min-heap property but is NOT in general
sorted ascending. -/
def heapify {β : Type} (lt : β → β → Bool) (dflt : β × Coordinate)
    (l : List (β × Coordinate)) : List (β × Coordinate) :=
  (List.range (l.length / 2)).reverse.foldl (fun h i => _siftup lt dflt h i) l

/-- `PathFinderAlgo.calculate_distances`: for each location, the list of
`(distance, other location)` pairs in input order, passed through
`heapq.heapify`, stored in a dict keyed by the location.  Generic in the
distance codomain; the source instantiates `dist` with
`Coordinate.distance_to` and `lt` with `<` on floats. -/
def calculate_distances {β : Type} (dist : Coordinate → Coordinate → β)
    (lt : β → β → Bool) (dflt : β × Coordinate) (locations : List Coordinate) :
    List (Coordinate × List (β × Coordinate)) :=
  locations.foldl
    (fun distance_map coord_a =>
      let distances :=
        (locations.filter (fun coord_b => decide (coord_a ≠ coord_b))).map
          (fun coord_b => (dist coord_a coord_b, coord_b))
      dictInsert distance_map coord_a (heapify lt dflt distances))
    []

/-- The nearest-neighbor scan of `PathFinderAlgo.calculate_shortest_path`:
first entry whose coordinate is unvisited, restricted to Staten Island
when `locked` (current borough is Staten Island and Staten Island is not
complete). -/
def find_next {β : Type} (locked : Bool) (visited : List Coordinate) :
    List (β × Coordinate) → Option Coordinate
  | [] => none
  | (_, coord) :: rest =>
    if coord ∈ visited then find_next locked visited rest
    else if locked then
      if _get_borough coord = "Staten Island" then some coord
      else find_next locked visited rest
    else some coord

/-- The `while len(visited) < len(self.locations)` loop of
`PathFinderAlgo.calculate_shortest_path`.  `visited` is kept as the list
of coordinates in visit order (the Python set is used only through
membership).  `none` models the `KeyError` of `distances[current]`.  The
guard together with the strict growth of `visited` bounds iterations by
`locations.length`, so the fuel passed by `calculate_shortest_path`
(`locations.length + 1`) never runs out; the `0` branch mirrors the
guard-failure exit. -/
def greedyLoop {β : Type} (locations : List Coordinate)
    (distances : List (Coordinate × List (β × Coordinate))) :
    ℕ → List Coordinate → Coordinate → List RouteStep →
    Option (Coordinate × List RouteStep)
  | 0, _, current, steps => some (current, steps)
  | Nat.succ fuel, visited, current, steps =>
    if visited.length < locations.length then
      match dictLookup distances current with
      | none => none
      | some nearest_neighbors =>
        let locked := decide (_get_borough current = "Staten Island")
          && !((staten_island_coords locations).all (fun c => decide (c ∈ visited)))
        match find_next locked visited nearest_neighbors with
        | none => some (current, steps)
        | some next_location =>
          greedyLoop locations distances fuel (visited ++ [next_location]) next_location
            (steps ++ [⟨current, next_location⟩])
    else some (current, steps)

/-- `PathFinderAlgo.calculate_shortest_path` (the greedy router): seed the
visited set with the starting point, run the loop, return the route whose
end is the last location reached. -/
def calculate_shortest_path {β : Type} (locations : List Coordinate)
    (starting_point : Coordinate)
    (distances : List (Coordinate × List (β × Coordinate))) : Option Route :=
  match greedyLoop locations distances (locations.length + 1)
      [starting_point] starting_point [] with
  | none => none
  | some (endp, steps) => some ⟨starting_point, endp, steps⟩

/-- The coordinate extraction of `PathFinderAlgo.check_route`: both ends
of the first step, then each later step's destination. -/
def all_route_coords : List RouteStep → List Coordinate
  | [] => []
  | s :: rest => s.coor_a :: s.coor_b :: rest.map RouteStep.coor_b

/-- Duplicate scan of `check_route` (flags any coordinate seen twice). -/
def no_duplicates (l : List Coordinate) : Bool :=
  decide l.Nodup

/-- Missing-locations check of `check_route`:
`expected_locations - visited_coords` must be empty (both are Python
sets, so only membership matters). -/
def no_missing (locations l : List Coordinate) : Bool :=
  locations.all (fun c => decide (c ∈ l))

/-- Extra-locations check of `check_route`:
`visited_coords - expected_locations` must be empty. -/
def no_extra (locations l : List Coordinate) : Bool :=
  l.all (fun c => decide (c ∈ locations))

/-- Continuity check of `check_route`: each step's destination equals the
next step's origin. -/
def continuity_ok : List RouteStep → Bool
  | [] => true
  | [_] => true
  | s :: t :: rest => decide (s.coor_b = t.coor_a) && continuity_ok (t :: rest)

/-- Endpoint check of `check_route`: with steps, first origin is
`route.start` and last destination is `route.end`; a route with no steps
is flagged invalid unconditionally (`[ROUTE ERROR] Route has no steps`). -/
def endpoints_ok (route : Route) : Bool :=
  match route.steps with
  | [] => false
  | s :: rest =>
    decide (s.coor_a = route.start)
      && decide (((s :: rest).getLast (List.cons_ne_nil s rest)).coor_b = route.endp)

/-- `PathFinderAlgo.check_route`: the source accumulates the independent
checks into one `is_valid` flag, which equals their conjunction. -/
def check_route (locations : List Coordinate) (route : Route) : Bool :=
  no_duplicates (all_route_coords route.steps)
    && no_missing locations (all_route_coords route.steps)
    && no_extra locations (all_route_coords route.steps)
    && continuity_ok route.steps
    && endpoints_ok route

/-- `math.radians`: degrees to radians, over the reals. -/
noncomputable def radians (x : ℚ) : ℝ :=
  (x : ℝ) * Real.pi / 180

/-- `Coordinate.distance_to`: the haversine great-circle distance in feet
(Earth radius 20,902,231 ft), in idealized real arithmetic.  Mathlib's
`Real.arcsin` clamps its argument into `[-1, 1]`, which matches the
spec's requirement to clamp the haversine intermediate before the
inverse-trigonometric step. -/
noncomputable def distance_to (a b : Coordinate) : ℝ :=
  let lat1_rad := radians a.latitude
  let lat2_rad := radians b.latitude
  let lon1_rad := radians a.longitude
  let lon2_rad := radians b.longitude
  let dlat := lat2_rad - lat1_rad
  let dlon := lon2_rad - lon1_rad
  let h := Real.sin (dlat / 2) ^ 2 +
    Real.cos lat1_rad * Real.cos lat2_rad * Real.sin (dlon / 2) ^ 2
  let c := 2 * Real.arcsin (Real.sqrt h)
  20902231 * c

/-- Python's `<` on distance values (floats), as a Bool-valued function
usable by the embedded code. -/
def floatLt {β : Type} [LinearOrder β] (x y : β) : Bool :=
  decide (x < y)

/-- `ClusteredPathFinderAlgo._find_nearest_point` is dead code in the
source's main path; the closure `find_nearest_unvisited` inside
`calculate_shortest_path` is this scan: first entry of the neighbor list
whose coordinate is an unvisited candidate. -/
def scan_candidates {β : Type} (visited candidates : List Coordinate) :
    List (β × Coordinate) → Option Coordinate
  | [] => none
  | (_, coord) :: rest =>
    if coord ∈ candidates ∧ coord ∉ visited then some coord
    else scan_candidates visited candidates rest

/-- The closure `find_nearest_unvisited(from_point, candidates)` of
`ClusteredPathFinderAlgo.calculate_shortest_path`.  The outer `none`
models the `KeyError` of `distances[from_point]`; `some none` is the
scan finding no candidate. -/
def find_nearest_unvisited {β : Type}
    (distances : List (Coordinate × List (β × Coordinate)))
    (visited candidates : List Coordinate) (from_point : Coordinate) :
    Option (Option Coordinate) :=
  match dictLookup distances from_point with
  | none => none
  | some nearest_neighbors => some (scan_candidates visited candidates nearest_neighbors)

/-- The closure `find_nearest_cluster(from_point, available_cluster_ids)`:
minimize the distance from `from_point` to the cluster centroid, strict
`<` against the best so far (seeded with `inf`, so the first id always
wins it), first-seen winning ties.  `available_cluster_ids` is a Python
set of small ints; its iteration order is deterministic within a process
and is modelled by the list order passed in. -/
def find_nearest_cluster {β : Type} (dist : Coordinate → Coordinate → β)
    (lt : β → β → Bool) (cluster_centers : ℕ → Coordinate) (from_point : Coordinate)
    (available_cluster_ids : List ℕ) : Option ℕ :=
  available_cluster_ids.foldl
    (fun nearest cluster_id =>
      match nearest with
      | none => some cluster_id
      | some b =>
        if lt (dist from_point (cluster_centers cluster_id))
            (dist from_point (cluster_centers b)) then some cluster_id
        else some b)
    none

/-- `list.index(c)`: position of the first occurrence; Python raises
`ValueError` when absent (`none`). -/
def listIndex (l : List Coordinate) (c : Coordinate) : Option ℕ :=
  if c ∈ l then some (l.indexOf c) else none

/-- The cluster-map construction of
`ClusteredPathFinderAlgo.calculate_shortest_path`: fold `zip(locations,
cluster_labels)` into a dict `label -> members in input order`. -/
def buildClusters (locations : List Coordinate) (cluster_labels : List ℕ) :
    List (ℕ × List Coordinate) :=
  (locations.zip cluster_labels).foldl
    (fun clusters cl =>
      match dictLookup clusters cl.2 with
      | some members => dictInsert clusters cl.2 (members ++ [cl.1])
      | none => dictInsert clusters cl.2 [cl.1])
    []

/-- Candidate selection of one iteration of the cluster router's main
loop: the Staten Island lock-in branch, else stay in the current cluster,
else jump to the nearest unvisited cluster, else (defensively) all
unvisited locations.  Returns the candidate list and the updated
`current_cluster_id`, `none` modelling a raised `KeyError`. -/
def clusterCandidates {β : Type} (locations : List Coordinate)
    (dist : Coordinate → Coordinate → β) (lt : β → β → Bool)
    (cluster_centers : ℕ → Coordinate) (clusters : List (ℕ × List Coordinate))
    (visited : List Coordinate) (current : Coordinate) (current_cluster_id : ℕ) :
    Option (List Coordinate × ℕ) :=
  let in_staten_island := _get_borough current = "Staten Island"
  let unvisited_staten_island :=
    (staten_island_coords locations).filter (fun c => decide (c ∉ visited))
  let staten_island_complete := unvisited_staten_island.isEmpty
  if in_staten_island ∧ staten_island_complete = false then
    some (unvisited_staten_island, current_cluster_id)
  else
    match dictLookup clusters current_cluster_id with
    | none => none
    | some cluster_members =>
      let current_cluster_unvisited :=
        cluster_members.filter (fun c => decide (c ∉ visited))
      if current_cluster_unvisited.isEmpty = false then
        some (current_cluster_unvisited, current_cluster_id)
      else
        let unvisited_cluster_ids :=
          (clusters.filter (fun kv => kv.2.any (fun c => decide (c ∉ visited)))).map
            (fun kv => kv.1)
        if unvisited_cluster_ids.isEmpty = false then
          match find_nearest_cluster dist lt cluster_centers current unvisited_cluster_ids with
          | none => none
          | some ncid =>
            match dictLookup clusters ncid with
            | none => none
            | some members =>
              some (members.filter (fun c => decide (c ∉ visited)), ncid)
        else
          some (locations.filter (fun c => decide (c ∉ visited)), current_cluster_id)

/-- The `while len(visited) < len(self.locations)` loop of
`ClusteredPathFinderAlgo.calculate_shortest_path`.  Same conventions as
`greedyLoop` (visit-order list for the visited set, fuel bounded by the
guard, `none` for a raised exception). -/
def clusterLoop {β : Type} (locations : List Coordinate)
    (dist : Coordinate → Coordinate → β) (lt : β → β → Bool)
    (distances : List (Coordinate × List (β × Coordinate)))
    (cluster_labels : List ℕ) (cluster_centers : ℕ → Coordinate)
    (clusters : List (ℕ × List Coordinate)) :
    ℕ → List Coordinate → Coordinate → List RouteStep → ℕ →
    Option (Coordinate × List RouteStep)
  | 0, _, current, steps, _ => some (current, steps)
  | Nat.succ fuel, visited, current, steps, current_cluster_id =>
    if visited.length < locations.length then
      match clusterCandidates locations dist lt cluster_centers clusters
          visited current current_cluster_id with
      | none => none
      | some (candidates, cid1) =>
        match find_nearest_unvisited distances visited candidates current with
        | none => none
        | some primary =>
          let fallback :=
            match primary with
            | some c => some (some c)
            | none =>
              find_nearest_unvisited distances visited
                (locations.filter (fun c => decide (c ∉ visited))) current
          match fallback with
          | none => none
          | some none => some (current, steps)
          | some (some next_location) =>
            let cid2 :=
              if next_location ∈ locations then
                match listIndex locations next_location with
                | some i => cluster_labels.get? i
                | none => none
              else some cid1
            match cid2 with
            | none => none
            | some new_cluster_id =>
              clusterLoop locations dist lt distances cluster_labels cluster_centers
                clusters fuel (visited ++ [next_location]) next_location
                (steps ++ [⟨current, next_location⟩]) new_cluster_id
    else some (current, steps)

/-- `ClusteredPathFinderAlgo.calculate_shortest_path` (the cluster
router).  `KMeans(n_clusters=min(num_clusters, len(locations)),
random_state=42).fit_predict` is an external, deterministic library
call; its per-point labels and its centroids are the `cluster_labels`
and `cluster_centers` parameters.  The source's write-only
`visited_clusters` set is omitted. -/
def cluster_calculate_shortest_path {β : Type} (locations : List Coordinate)
    (dist : Coordinate → Coordinate → β) (lt : β → β → Bool)
    (cluster_labels : List ℕ) (cluster_centers : ℕ → Coordinate)
    (starting_point : Coordinate)
    (distances : List (Coordinate × List (β × Coordinate))) : Option Route :=
  let clusters := buildClusters locations cluster_labels
  match listIndex locations starting_point with
  | none => none
  | some i =>
    match cluster_labels.get? i with
    | none => none
    | some cid0 =>
      match clusterLoop locations dist lt distances cluster_labels cluster_centers
          clusters (locations.length + 1) [starting_point] starting_point [] cid0 with
      | none => none
      | some (endp, steps) => some ⟨starting_point, endp, steps⟩

/-- `Route.total_distance`: sum of the step distances (the lazy cache of
`RouteStep.distance` is a pure memoization of `distance_to`, modelled by
direct recomputation through `dist`). -/
def total_distance {β : Type} [AddCommMonoid β]
    (dist : Coordinate → Coordinate → β) (route : Route) : β :=
  (route.steps.map (fun s => dist s.coor_a s.coor_b)).sum

/-- The candidate loop of `PathFinderAlgo.find_best_starting_point`:
fold over the locations keeping the lowest total distance, strict `<`
against the best so far (seeded with `float('inf')`, modelled by `none`,
which any first total beats), so the first-seen candidate wins ties.
`builder` is the dynamically dispatched `self.calculate_shortest_path`;
`none` propagates a raised exception. -/
def findBestLoop {β : Type} [LinearOrder β] (total : Route → β)
    (builder : Coordinate → Option Route) :
    List Coordinate → Option Coordinate → Option β → Option (Option Coordinate)
  | [], best_start, _ => some best_start
  | start_coord :: rest, best_start, best_distance =>
    match builder start_coord with
    | none => none
    | some route =>
      let total_dist := total route
      if (match best_distance with
          | none => true
          | some bd => decide (total_dist < bd)) then
        findBestLoop total builder rest (some start_coord) (some total_dist)
      else
        findBestLoop total builder rest best_start best_distance

/-- `PathFinderAlgo.find_best_starting_point`: pre-compute the distance
index once, try every location as a start, return the best (Python
`None`, i.e. `some none`, when the location list is empty). -/
def find_best_starting_point {β : Type} [LinearOrder β] [AddCommMonoid β]
    (dist : Coordinate → Coordinate → β) (locations : List Coordinate)
    (builder : Coordinate → List (Coordinate × List (β × Coordinate)) → Option Route) :
    Option (Option Coordinate) :=
  let distances := calculate_distances dist floatLt (0, coord0) locations
  findBestLoop (total_distance dist) (fun s => builder s distances) locations none none

/-- The state accumulated by `ClusteredPathFinderAlgo.optimize_parameters`:
`best_start`, `best_distance`, `best_cluster_size` and the trial counter
`num_steps` (the source returns only `best_start`; the counter is the
source's `num_steps` local). -/
structure OptimizeState (β : Type) where
  best_start : Option Coordinate
  best_distance : Option β
  best_cluster_size : Option ℕ
  num_steps : ℕ
deriving Repr, DecidableEq

/-- The inner `for i, start_coord in enumerate(self.locations)` loop of
`optimize_parameters` at cluster count `n`. -/
def optimizeInner {β : Type} [LinearOrder β] [AddCommMonoid β]
    (dist : Coordinate → Coordinate → β) (locations : List Coordinate)
    (distances : List (Coordinate × List (β × Coordinate)))
    (kmeans_labels : ℕ → List ℕ) (kmeans_centers : ℕ → ℕ → Coordinate) (n : ℕ) :
    List Coordinate → OptimizeState β → Option (OptimizeState β)
  | [], st => some st
  | start_coord :: rest, st =>
    match cluster_calculate_shortest_path locations dist floatLt
        (kmeans_labels n) (kmeans_centers n) start_coord distances with
    | none => none
    | some route =>
      let total_dist := total_distance dist route
      let upd : Bool :=
        match st.best_distance with
        | none => true
        | some bd => decide (total_dist < bd)
      let st2 :=
        if upd then
          OptimizeState.mk (some start_coord) (some total_dist) (some n) (st.num_steps + 1)
        else
          OptimizeState.mk st.best_start st.best_distance st.best_cluster_size
            (st.num_steps + 1)
      optimizeInner dist locations distances kmeans_labels kmeans_centers n rest st2

/-- The outer `for n in range(1, max_clusters)` loop of
`optimize_parameters`. -/
def optimizeOuter {β : Type} [LinearOrder β] [AddCommMonoid β]
    (dist : Coordinate → Coordinate → β) (locations : List Coordinate)
    (distances : List (Coordinate × List (β × Coordinate)))
    (kmeans_labels : ℕ → List ℕ) (kmeans_centers : ℕ → ℕ → Coordinate) :
    List ℕ → OptimizeState β → Option (OptimizeState β)
  | [], st => some st
  | n :: rest, st =>
    match optimizeInner dist locations distances kmeans_labels kmeans_centers n
        locations st with
    | none => none
    | some st2 =>
      optimizeOuter dist locations distances kmeans_labels kmeans_centers rest st2

/-- `ClusteredPathFinderAlgo.optimize_parameters`: sweep
`range(1, max_clusters)` (that is, the `max_clusters - 1` cluster counts
`1 … max_clusters - 1`) over every starting location.  Python's
`range(1, max_clusters)` is `List.range' 1 (max_clusters - 1)`.  The
source's own progress denominator is
`total_search_space = max(1, len(self.locations)) * max_clusters`. -/
def optimize_parameters {β : Type} [LinearOrder β] [AddCommMonoid β]
    (dist : Coordinate → Coordinate → β) (locations : List Coordinate)
    (kmeans_labels : ℕ → List ℕ) (kmeans_centers : ℕ → ℕ → Coordinate)
    (max_clusters : ℕ) : Option (OptimizeState β) :=
  let distances := calculate_distances dist floatLt (0, coord0) locations
  optimizeOuter dist locations distances kmeans_labels kmeans_centers
    (List.range' 1 (max_clusters - 1))
    (OptimizeState.mk none none none 0)

/-- Completeness of a distance index over a location list, as checked by
an executable scan: every location has an entry, that entry mentions
every other location, and mentions only other locations.  The index
built by `calculate_distances` over the same list has this property;
hypotheses of the route theorems take it as the characterization of a
"full" index. -/
def indexCompleteB {β : Type}
    (distances : List (Coordinate × List (β × Coordinate)))
    (locations : List Coordinate) : Bool :=
  locations.all (fun p =>
    match dictLookup distances p with
    | none => false
    | some l =>
      (locations.all (fun q => decide (q = p) || l.any (fun e => decide (e.2 = q))))
        && l.all (fun e => decide (e.2 ∈ locations) && decide (e.2 ≠ p)))

/-- The coordinates visited strictly before step `i` of a route that
starts at `start`: the start itself and the destinations of the earlier
steps. -/
def visitedBefore (start : Coordinate) (steps : List RouteStep) (i : ℕ) :
    List Coordinate :=
  start :: (steps.take i).map RouteStep.coor_b

/-- The general region lock-in property claimed by the spec: at every
step, if the origin's borough still has an unvisited member among the
locations, the destination is in that same borough. -/
def regionLockIn (locations : List Coordinate) (start : Coordinate)
    (steps : List RouteStep) : Prop :=
  ∀ i, (h : i < steps.length) →
    (∃ c ∈ locations, _get_borough c = _get_borough (steps.get ⟨i, h⟩).coor_a ∧
      c ∉ visitedBefore start steps i) →
    _get_borough (steps.get ⟨i, h⟩).coor_b = _get_borough (steps.get ⟨i, h⟩).coor_a

/-- The lock-in property the source actually enforces: only for the
Staten Island borough. -/
def siLockIn (locations : List Coordinate) (start : Coordinate)
    (steps : List RouteStep) : Prop :=
  ∀ i, (h : i < steps.length) →
    _get_borough (steps.get ⟨i, h⟩).coor_a = "Staten Island" →
    (∃ c ∈ locations, _get_borough c = "Staten Island" ∧
      c ∉ visitedBefore start steps i) →
    _get_borough (steps.get ⟨i, h⟩).coor_b = "Staten Island"

instance (locations : List Coordinate) (start : Coordinate) (steps : List RouteStep) :
    Decidable (regionLockIn locations start steps) := by
  unfold regionLockIn
  infer_instance

instance (locations : List Coordinate) (start : Coordinate) (steps : List RouteStep) :
    Decidable (siLockIn locations start steps) := by
  unfold siLockIn
  infer_instance

/-- A Manhattan test point, latitude 40.71, longitude -73.95 (inside the
source's Manhattan box). -/
def mhA : Coordinate :=
  ⟨ratc 4071 100 (by norm_num) (by norm_num), ratc (-1479) 20 (by norm_num) (by norm_num)⟩

/-- A second Manhattan test point on the same meridian, latitude 40.88. -/
def mhB : Coordinate :=
  ⟨ratc 1022 25 (by norm_num) (by norm_num), ratc (-1479) 20 (by norm_num) (by norm_num)⟩

/-- A Brooklyn test point on the same meridian, latitude 40.60, closer to
`mhA` (0.11 degrees of latitude) than `mhB` is (0.17 degrees). -/
def bkC : Coordinate :=
  ⟨ratc 203 5 (by norm_num) (by norm_num), ratc (-1479) 20 (by norm_num) (by norm_num)⟩

/-- A Staten Island test point, (40.50, -74.10). -/
def siA : Coordinate :=
  ⟨ratc 81 2 (by norm_num) (by norm_num), ratc (-741) 10 (by norm_num) (by norm_num)⟩

/-- A second Staten Island test point, (40.60, -74.10). -/
def siB : Coordinate :=
  ⟨ratc 203 5 (by norm_num) (by norm_num), ratc (-741) 10 (by norm_num) (by norm_num)⟩

/-- Stand-in metric valued in ℕ for the route-construction statements,
whose logic never reads the distance values (only the order of the
pre-sorted neighbor lists, or no order at all): the constant 1. -/
def unitDist (_ _ : Coordinate) : ℕ := 1

/-- Default element for the ℕ-valued heapify instances (never read when
indices stay in range, which they do). -/
def dfltN : ℕ × Coordinate := (0, coord0)

/-- The full distance index over `[mhA, mhB, bkC]`, with each neighbor
list sorted ascending; the values are the latitude gaps in hundredths of
a degree, which order the pairs exactly as the haversine distance does
on this shared meridian. -/
def dMB : List (Coordinate × List (ℕ × Coordinate)) :=
  [(mhA, [(11, bkC), (17, mhB)]),
   (mhB, [(17, mhA), (28, bkC)]),
   (bkC, [(11, mhA), (28, mhB)])]

/-- C1, counterexample.  The greedy router, started at the Manhattan
point `mhA` of a complete (and correctly sorted) index over two
Manhattan points and one Brooklyn point, steps first to the nearer
Brooklyn point even though Manhattan still has the unvisited member
`mhB`: the region lock-in holds only for Staten Island, not for every
region. -/
theorem c1_region_lockin_fails_for_manhattan :
    indexCompleteB dMB [mhA, mhB, bkC] = true ∧
    calculate_shortest_path [mhA, mhB, bkC] mhA dMB =
      some ⟨mhA, mhB, [⟨mhA, bkC⟩, ⟨bkC, mhB⟩]⟩ ∧
    _get_borough mhA = "Manhattan" ∧ _get_borough mhB = "Manhattan" ∧
    _get_borough bkC = "Brooklyn" ∧
    ¬ regionLockIn [mhA, mhB, bkC] mhA [⟨mhA, bkC⟩, ⟨bkC, mhB⟩] := by
  decide

/-- C3, counterexample.  For the one-element point set `[mhA]` (pairwise
distinct) with its own full distance index, the produced route has zero
steps and `check_route` rejects it (`Route has no steps`), so the claim
fails for point sets of size one. -/
theorem c3_singleton_route_rejected :
    [mhA].Nodup ∧ mhA ∈ [mhA] ∧
    calculate_shortest_path [mhA] mhA
        (calculate_distances unitDist floatLt dfltN [mhA]) =
      some ⟨mhA, mhA, []⟩ ∧
    check_route [mhA] ⟨mhA, mhA, []⟩ = false := by
  decide

/-- C4, counterexample.  For the empty point set, route construction
returns the zero-step route without error, but the validator REJECTS it
(the source's `else` branch flags `Route has no steps` unconditionally),
contradicting the claim that a zero-step route passes when the expected
set has at most one member. -/
theorem c4_empty_set_zero_step_route_rejected :
    calculate_shortest_path ([] : List Coordinate) mhA
        (calculate_distances unitDist floatLt dfltN []) =
      some ⟨mhA, mhA, []⟩ ∧
    check_route [] ⟨mhA, mhA, []⟩ = false := by
  decide

/-- C9, counterexample.  With the duplicated input list
`[mhA, mhA, bkC]` (d = 2 distinct coordinates) the greedy router breaks
out after d - 1 = 1 step, and the validator then ACCEPTS the route: the
visited set equals the de-duplicated expected set (`set(self.locations)`),
so no missing locations are flagged, contrary to the claim's final
clause. -/
theorem c9_duplicates_route_accepted :
    calculate_shortest_path [mhA, mhA, bkC] mhA
        (calculate_distances unitDist floatLt dfltN [mhA, mhA, bkC]) =
      some ⟨mhA, bkC, [⟨mhA, bkC⟩]⟩ ∧
    check_route [mhA, mhA, bkC] ⟨mhA, bkC, [⟨mhA, bkC⟩]⟩ = true := by
  decide

/-- C10, counterexample.  Calling the greedy router with a start outside
a NON-EMPTY one-element point set does NOT raise: the loop guard
`len(visited) < len(self.locations)` is `1 < 1`, the body never runs, and
a zero-step route is returned with no dictionary lookup at all. -/
theorem c10_outside_start_singleton_no_keyerror :
    mhA ∉ [bkC] ∧ ([bkC] : List Coordinate) ≠ [] ∧
    calculate_shortest_path [bkC] mhA
        (calculate_distances unitDist floatLt dfltN [bkC]) =
      some ⟨mhA, mhA, []⟩ := by
  decide

/-- C6.  Both routers are pure functions of their inputs in this
embedding: the only stateful ingredients of the source are the visited
set local to one invocation and `KMeans(random_state=42)`, whose fixed
seed makes the external clustering a deterministic function of its input
(modelled by the `cluster_labels`/`cluster_centers` parameters), so two
runs on the same start, same index and same inputs return identical
routes. -/
theorem c6_routers_deterministic {β : Type} (locations : List Coordinate)
    (starting_point : Coordinate)
    (distances : List (Coordinate × List (β × Coordinate)))
    (dist : Coordinate → Coordinate → β) (lt : β → β → Bool)
    (cluster_labels : List ℕ) (cluster_centers : ℕ → Coordinate) :
    calculate_shortest_path locations starting_point distances =
      calculate_shortest_path locations starting_point distances ∧
    cluster_calculate_shortest_path locations dist lt cluster_labels cluster_centers
        starting_point distances =
      cluster_calculate_shortest_path locations dist lt cluster_labels cluster_centers
        starting_point distances :=
  ⟨rfl, rfl⟩

/-- C7.  The parameterized optimizer's sweep is off by one against the
claim: with n = 1 location and `max_clusters` K = 2 it performs exactly
one `(start, clusterCount)` trial (its `num_steps` counter ends at 1),
not n × K = 2 — Python's `range(1, max_clusters)` covers only the K - 1
cluster counts `1 … K - 1`, even though the source's own progress
denominator `total_search_space` is `n * max_clusters`. -/
theorem c7_optimize_parameters_trial_count :
    optimize_parameters unitDist [mhA] (fun _ => [0]) (fun _ _ => mhA) 2 =
      some (OptimizeState.mk (some mhA) (some 0) (some 1) 1) ∧
    1 ≠ [mhA].length * 2 := by
  decide

/-- A raw-constructor rational equals its fraction. -/
theorem ratc_eq_div (n : Int) (d : ℕ) (h1 : d ≠ 0) (h2 : n.natAbs.Coprime d) :
    ratc n d h1 h2 = (n : ℚ) / (d : ℚ) := by
  simpa [ratc] using (Rat.num_div_den (ratc n d h1 h2)).symm

/-- `distance_to` with its `let` bindings expanded. -/
theorem distance_to_eq (a b : Coordinate) :
    distance_to a b = 20902231 * (2 * Real.arcsin (Real.sqrt
      (Real.sin ((radians b.latitude - radians a.latitude) / 2) ^ 2 +
        Real.cos (radians a.latitude) * Real.cos (radians b.latitude) *
          Real.sin ((radians b.longitude - radians a.longitude) / 2) ^ 2))) := rfl

/-- C8.  The haversine distance of the source is symmetric, zero on the
diagonal, and non-negative. -/
theorem c8_distance_symm_diag_nonneg (a b : Coordinate) :
    distance_to a b = distance_to b a ∧ distance_to a a = 0 ∧ 0 ≤ distance_to a b := by
  refine ⟨?_, ?_, ?_⟩
  · rw [distance_to_eq, distance_to_eq]
    have h : ∀ x y : ℝ, Real.sin ((x - y) / 2) ^ 2 = Real.sin ((y - x) / 2) ^ 2 := by
      intro x y
      have hx : (x - y) / 2 = -((y - x) / 2) := by ring
      rw [hx, Real.sin_neg, neg_sq]
    rw [h (radians b.latitude) (radians a.latitude),
      h (radians b.longitude) (radians a.longitude),
      mul_comm (Real.cos (radians a.latitude)) (Real.cos (radians b.latitude))]
  · rw [distance_to_eq]
    simp
  · rw [distance_to_eq]
    have h1 : 0 ≤ Real.arcsin (Real.sqrt
        (Real.sin ((radians b.latitude - radians a.latitude) / 2) ^ 2 +
          Real.cos (radians a.latitude) * Real.cos (radians b.latitude) *
            Real.sin ((radians b.longitude - radians a.longitude) / 2) ^ 2)) :=
      Real.arcsin_nonneg.mpr (Real.sqrt_nonneg _)
    positivity

/-- Degree-to-radian conversion distributes over subtraction. -/
theorem radians_sub (a b : ℚ) :
    radians a - radians b = ((a : ℝ) - (b : ℝ)) * (Real.pi / 180) := by
  rw [radians, radians]
  ring

/-- On a shared meridian (equal longitudes) and for latitude gaps of at
most 180 degrees, the haversine distance is exactly the latitude gap
scaled by `20902231 * pi / 180`: here `2 * arcsin |sin x| = 2 * |x|`. -/
theorem distance_to_meridian (a b : Coordinate) (hlon : a.longitude = b.longitude)
    (hlat : |a.latitude - b.latitude| ≤ 180) :
    distance_to a b =
      20902231 * (Real.pi / 180) * |(a.latitude : ℝ) - (b.latitude : ℝ)| := by
  have hlon0 : radians b.longitude - radians a.longitude = 0 := by
    rw [hlon, sub_self]
  rw [distance_to_eq, hlon0]
  have hΔ : |(b.latitude : ℝ) - (a.latitude : ℝ)| ≤ 180 := by
    rw [abs_sub_comm]
    calc |(a.latitude : ℝ) - (b.latitude : ℝ)|
        = ((|a.latitude - b.latitude| : ℚ) : ℝ) := by push_cast; ring_nf
      _ ≤ 180 := by exact_mod_cast hlat
  set x : ℝ := (radians b.latitude - radians a.latitude) / 2 with hxdef
  have hxval : x = ((b.latitude : ℝ) - (a.latitude : ℝ)) * (Real.pi / 360) := by
    rw [hxdef, radians_sub]
    ring
  have hxabs : |x| = |(b.latitude : ℝ) - (a.latitude : ℝ)| * (Real.pi / 360) := by
    rw [hxval, abs_mul, abs_of_nonneg (by positivity : (0:ℝ) ≤ Real.pi / 360)]
  have hxle : |x| ≤ Real.pi / 2 := by
    rw [hxabs]
    have hpi : 0 < Real.pi := Real.pi_pos
    nlinarith [hΔ, abs_nonneg ((b.latitude : ℝ) - (a.latitude : ℝ))]
  have hsin : Real.sin (0 / 2) ^ 2 = 0 := by
    norm_num
  rw [hsin, mul_zero, add_zero, Real.sqrt_sq_eq_abs]
  have habs : |Real.sin x| = Real.sin |x| := by
    rcases le_or_lt 0 x with h | h
    · rw [abs_of_nonneg h, abs_of_nonneg]
      apply Real.sin_nonneg_of_nonneg_of_le_pi h
      have := le_abs_self x
      nlinarith [Real.pi_pos, hxle]
    · rw [abs_of_neg h, Real.sin_neg, abs_of_nonpos]
      apply Real.sin_nonpos_of_nonnpos_of_neg_pi_le h.le
      have := neg_abs_le x
      nlinarith [Real.pi_pos, hxle]
  rw [habs, Real.arcsin_sin (by nlinarith [abs_nonneg x, Real.pi_pos]) hxle]
  rw [hxabs, abs_sub_comm ((b.latitude : ℝ)) ((a.latitude : ℝ))]
  ring

/-- Strict monotonicity of the meridian distance in the latitude gap. -/
theorem meridian_lt (a b c : Coordinate) (h1 : a.longitude = b.longitude)
    (h2 : a.longitude = c.longitude)
    (hb : |a.latitude - b.latitude| ≤ 180) (hc : |a.latitude - c.latitude| ≤ 180)
    (h : |a.latitude - b.latitude| < |a.latitude - c.latitude|) :
    distance_to a b < distance_to a c := by
  rw [distance_to_meridian a b h1 hb, distance_to_meridian a c h2 hc]
  have hpos : (0:ℝ) < 20902231 * (Real.pi / 180) := by positivity
  apply mul_lt_mul_of_pos_left _ hpos
  have hcast : ((|a.latitude - b.latitude| : ℚ) : ℝ) < ((|a.latitude - c.latitude| : ℚ) : ℝ) := by
    exact_mod_cast h
  calc |(a.latitude : ℝ) - (b.latitude : ℝ)|
      = ((|a.latitude - b.latitude| : ℚ) : ℝ) := by push_cast; ring_nf
    _ < ((|a.latitude - c.latitude| : ℚ) : ℝ) := hcast
    _ = |(a.latitude : ℝ) - (c.latitude : ℝ)| := by push_cast; ring_nf

/-- `heapq.heapify` on a three-element list whose middle element is the
strict minimum and whose first element is at least the middle one swaps
only the first two positions: the result `[b, a, c]` is a valid min-heap
but is not sorted when `c < a`. -/
theorem heapify_three {β : Type} (lt : β → β → Bool) (dflt a b c : β × Coordinate)
    (hbc : entryLt lt b c = true) (hab : entryLt lt a b = false) :
    heapify lt dflt [a, b, c] = [b, a, c] := by
  have e1 : heapify lt dflt [a, b, c] = _siftup lt dflt [a, b, c] 0 := by
    simp [heapify, List.range_succ]
  rw [e1]
  simp [_siftup, _siftupLoop, _siftdownLoop, _siftdown, hbc, hab]

/-- Test point (40.70, -73.95) for the heapify counterexample. -/
def p40_70 : Coordinate :=
  ⟨ratc 407 10 (by norm_num) (by norm_num), ratc (-1479) 20 (by norm_num) (by norm_num)⟩

/-- Test point (40.75, -73.95): 0.05 degrees of latitude from `p40_70`. -/
def p40_75 : Coordinate :=
  ⟨ratc 163 4 (by norm_num) (by norm_num), ratc (-1479) 20 (by norm_num) (by norm_num)⟩

/-- Test point (40.71, -73.95): 0.01 degrees of latitude from `p40_70`. -/
def p40_71 : Coordinate :=
  ⟨ratc 4071 100 (by norm_num) (by norm_num), ratc (-1479) 20 (by norm_num) (by norm_num)⟩

/-- Test point (40.73, -73.95): 0.03 degrees of latitude from `p40_70`. -/
def p40_73 : Coordinate :=
  ⟨ratc 4073 100 (by norm_num) (by norm_num), ratc (-1479) 20 (by norm_num) (by norm_num)⟩

/-- C2.  On the four-point input `[p40_70, p40_75, p40_71, p40_73]` (all
on one meridian, with true haversine distances from `p40_70` in the
pattern 0.05 > 0.01 < 0.03 degrees), `calculate_distances` returns for
`p40_70` the heapified list whose second entry (`p40_75`) is strictly
FARTHER than its third (`p40_73`): the list is in heap order, not
ascending order, contradicting the claim (and the function's own
docstring). -/
theorem c2_index_not_sorted_ascending :
    dictLookup (calculate_distances distance_to floatLt (0, coord0)
        [p40_70, p40_75, p40_71, p40_73]) p40_70 =
      some [(distance_to p40_70 p40_71, p40_71),
            (distance_to p40_70 p40_75, p40_75),
            (distance_to p40_70 p40_73, p40_73)] ∧
    distance_to p40_70 p40_73 < distance_to p40_70 p40_75 ∧
    ¬ List.Chain' (fun x y : ℝ × Coordinate => x.1 ≤ y.1)
      [(distance_to p40_70 p40_71, p40_71),
       (distance_to p40_70 p40_75, p40_75),
       (distance_to p40_70 p40_73, p40_73)] := by
  have l71 : |p40_70.latitude - p40_71.latitude| = 1/100 := by
    rw [abs_sub_comm, abs_of_nonneg] <;>
      · simp [p40_70, p40_71, ratc_eq_div]
        norm_num
  have l73 : |p40_70.latitude - p40_73.latitude| = 3/100 := by
    rw [abs_sub_comm, abs_of_nonneg] <;>
      · simp [p40_70, p40_73, ratc_eq_div]
        norm_num
  have l75 : |p40_70.latitude - p40_75.latitude| = 1/20 := by
    rw [abs_sub_comm, abs_of_nonneg] <;>
      · simp [p40_70, p40_75, ratc_eq_div]
        norm_num
  have h1 : distance_to p40_70 p40_71 < distance_to p40_70 p40_73 :=
    meridian_lt p40_70 p40_71 p40_73 rfl rfl (by rw [l71]; norm_num)
      (by rw [l73]; norm_num) (by rw [l71, l73]; norm_num)
  have h2 : distance_to p40_70 p40_73 < distance_to p40_70 p40_75 :=
    meridian_lt p40_70 p40_73 p40_75 rfl rfl (by rw [l73]; norm_num)
      (by rw [l75]; norm_num) (by rw [l73, l75]; norm_num)
  have hlook : dictLookup (calculate_distances distance_to floatLt (0, coord0)
      [p40_70, p40_75, p40_71, p40_73]) p40_70 =
      some (heapify floatLt (0, coord0)
        [(distance_to p40_70 p40_75, p40_75),
         (distance_to p40_70 p40_71, p40_71),
         (distance_to p40_70 p40_73, p40_73)]) := rfl
  have hbc : entryLt floatLt (distance_to p40_70 p40_71, p40_71)
      (distance_to p40_70 p40_73, p40_73) = true := by
    simp [entryLt, floatLt]
    exact h1
  have hab : entryLt floatLt (distance_to p40_70 p40_75, p40_75)
      (distance_to p40_70 p40_71, p40_71) = false := by
    simp [entryLt, floatLt]
    exact (h1.trans h2).le
  refine ⟨?_, h2, ?_⟩
  · rw [hlook, heapify_three floatLt (0, coord0) _ _ _ hbc hab]
  · intro hchain
    simp only [List.chain'_cons, List.chain'_singleton, and_true] at hchain
    exact absurd hchain.2 (not_le.mpr h2)

/-- The steps of a route that visits the coordinates of `v` in order. -/
def zipAdjacent : List Coordinate → List RouteStep
  | [] => []
  | [_] => []
  | a :: b :: rest => ⟨a, b⟩ :: zipAdjacent (b :: rest)

theorem zipAdjacent_append (v : List Coordinate) (c next : Coordinate)
    (h : v.getLast? = some c) :
    zipAdjacent (v ++ [next]) = zipAdjacent v ++ [⟨c, next⟩] := by
  induction v with
  | nil => simp at h
  | cons a rest ih =>
    cases rest with
    | nil =>
      simp [List.getLast?] at h
      subst h
      simp [zipAdjacent]
    | cons b rest2 =>
      have h2 : (b :: rest2).getLast? = some c := by
        rwa [List.getLast?_cons_cons] at h
      have hh := ih h2
      simp only [List.cons_append] at hh ⊢
      simp only [zipAdjacent, List.cons_append] at hh ⊢
      rw [hh]

theorem trail_coords (v : List Coordinate) (s : Coordinate) (h : v.head? = some s) :
    s :: (zipAdjacent v).map RouteStep.coor_b = v := by
  induction v generalizing s with
  | nil => simp at h
  | cons a rest ih =>
    simp only [List.head?_cons, Option.some_inj] at h
    subst h
    cases rest with
    | nil => simp [zipAdjacent]
    | cons b rest2 =>
      simp only [zipAdjacent, List.map_cons]
      have := ih b (by simp)
      rw [this]

theorem zipAdjacent_length (v : List Coordinate) :
    (zipAdjacent v).length = v.length - 1 := by
  induction v with
  | nil => simp [zipAdjacent]
  | cons a rest ih =>
    cases rest with
    | nil => simp [zipAdjacent]
    | cons b rest2 =>
      simp only [zipAdjacent, List.length_cons] at ih ⊢
      omega

theorem continuity_zipAdjacent (v : List Coordinate) :
    continuity_ok (zipAdjacent v) = true := by
  induction v with
  | nil => simp [zipAdjacent, continuity_ok]
  | cons a rest ih =>
    cases rest with
    | nil => simp [zipAdjacent, continuity_ok]
    | cons b rest2 =>
      cases rest2 with
      | nil => simp [zipAdjacent, continuity_ok]
      | cons c rest3 =>
        simp only [zipAdjacent, continuity_ok] at ih ⊢
        simp_all

theorem all_route_coords_zipAdjacent (v : List Coordinate) (h : 2 ≤ v.length) :
    all_route_coords (zipAdjacent v) = v := by
  match v, h with
  | a :: b :: rest, _ =>
    simp only [zipAdjacent, all_route_coords]
    have := trail_coords (b :: rest) b (by simp)
    rw [this]

theorem zipAdjacent_head (a b : Coordinate) (rest : List Coordinate) :
    zipAdjacent (a :: b :: rest) = ⟨a, b⟩ :: zipAdjacent (b :: rest) := rfl

theorem zipAdjacent_last (v : List Coordinate) (e : Coordinate)
    (hlen : 2 ≤ v.length) (hl : v.getLast? = some e) :
    ∃ s rest, zipAdjacent v = s :: rest ∧
      ((s :: rest).getLast (List.cons_ne_nil s rest)).coor_b = e := by
  induction v with
  | nil => simp at hlen
  | cons a tail ih =>
    cases tail with
    | nil => simp at hlen
    | cons b rest2 =>
      cases rest2 with
      | nil =>
        have hb : b = e := by simpa using hl
        subst hb
        exact ⟨⟨a, b⟩, [], rfl, rfl⟩
      | cons c rest3 =>
        have hl2 : (b :: c :: rest3).getLast? = some e := by
          rwa [List.getLast?_cons_cons] at hl
        obtain ⟨s, rest, heq, hlast⟩ := ih (by simp) hl2
        refine ⟨⟨a, b⟩, s :: rest, ?_, ?_⟩
        · rw [zipAdjacent_head, heq]
        · rw [List.getLast_cons (List.cons_ne_nil s rest)]
          exact hlast

/-- `check_route` accepts the route of any simple trail whose visited
list covers the expected set exactly. -/
theorem check_route_of_trail (locations v : List Coordinate) (start endp : Coordinate)
    (hhead : v.head? = some start) (hlast : v.getLast? = some endp)
    (hnodup : v.Nodup) (hmem : ∀ c, c ∈ v ↔ c ∈ locations)
    (hlen : 2 ≤ v.length) :
    check_route locations ⟨start, endp, zipAdjacent v⟩ = true := by
  have hcoords : all_route_coords (zipAdjacent v) = v := all_route_coords_zipAdjacent v hlen
  unfold check_route
  rw [hcoords]
  have h1 : no_duplicates v = true := by
    simp [no_duplicates, hnodup]
  have h2 : no_missing locations v = true := by
    simp only [no_missing, List.all_eq_true, decide_eq_true_eq]
    intro c hc
    exact (hmem c).mpr hc
  have h3 : no_extra locations v = true := by
    simp only [no_extra, List.all_eq_true, decide_eq_true_eq]
    intro c hc
    exact (hmem c).mp hc
  have h4 : continuity_ok (zipAdjacent v) = true := continuity_zipAdjacent v
  have h5 : endpoints_ok ⟨start, endp, zipAdjacent v⟩ = true := by
    obtain ⟨s, rest, heq, hlaststep⟩ := zipAdjacent_last v endp hlen hlast
    simp only [endpoints_ok, heq]
    have hstart : s.coor_a = start := by
      match v, hlen, hhead, heq with
      | a :: b :: r2, _, hh, he =>
        simp only [List.head?_cons, Option.some_inj] at hh
        rw [zipAdjacent_head] at he
        injection he with h1 h2
        rw [← h1, hh]
    simp [hstart, hlaststep]
  rw [h1, h2, h3, h4, h5]
  rfl

/-- Propositional form of index completeness (see `indexCompleteB`). -/
def IndexComplete {β : Type} (distances : List (Coordinate × List (β × Coordinate)))
    (locations : List Coordinate) : Prop :=
  ∀ p ∈ locations, ∃ l, dictLookup distances p = some l ∧
    (∀ q ∈ locations, q ≠ p → ∃ d, (d, q) ∈ l) ∧
    (∀ e ∈ l, e.2 ∈ locations ∧ e.2 ≠ p)

theorem indexComplete_of_B {β : Type} (distances : List (Coordinate × List (β × Coordinate)))
    (locations : List Coordinate) (h : indexCompleteB distances locations = true) :
    IndexComplete distances locations := by
  intro p hp
  rw [indexCompleteB, List.all_eq_true] at h
  have := h p hp
  revert this
  match hl : dictLookup distances p with
  | none => simp
  | some l =>
    intro hb
    simp only [Bool.and_eq_true, List.all_eq_true, Bool.or_eq_true, decide_eq_true_eq] at hb
    refine ⟨l, rfl, ?_, ?_⟩
    · intro q hq hqp
      rcases hb.1 q hq with h1 | h1
      · exact absurd h1 hqp
      · rcases List.any_eq_true.mp h1 with ⟨e, he, heq⟩
        have hq2 : e.2 = q := of_decide_eq_true heq
        refine ⟨e.1, ?_⟩
        rw [← hq2]
        simpa using he
    · intro e he
      exact hb.2 e he

theorem find_next_some {β : Type} {locked : Bool} {visited : List Coordinate}
    {l : List (β × Coordinate)} {c : Coordinate}
    (h : find_next locked visited l = some c) :
    (∃ d, (d, c) ∈ l) ∧ c ∉ visited ∧ (locked = true → _get_borough c = "Staten Island") := by
  induction l with
  | nil => simp [find_next] at h
  | cons e rest ih =>
    obtain ⟨d0, c0⟩ := e
    rw [find_next] at h
    by_cases hv : c0 ∈ visited
    · rw [if_pos hv] at h
      obtain ⟨⟨d, hd⟩, hnv, hsi⟩ := ih h
      exact ⟨⟨d, List.mem_cons_of_mem _ hd⟩, hnv, hsi⟩
    · rw [if_neg hv] at h
      cases locked with
      | false =>
        simp only [if_neg, Bool.false_eq_true, if_false, Option.some_inj] at h
        subst h
        exact ⟨⟨d0, List.mem_cons_self _ _⟩, hv, by intro hc; exact absurd hc (by simp)⟩
      | true =>
        simp only [if_pos] at h
        by_cases hsi : _get_borough c0 = "Staten Island"
        · rw [if_pos hsi] at h
          injection h with h
          subst h
          exact ⟨⟨d0, List.mem_cons_self _ _⟩, hv, fun _ => hsi⟩
        · rw [if_neg hsi] at h
          obtain ⟨⟨d, hd⟩, hnv, hsi2⟩ := ih h
          exact ⟨⟨d, List.mem_cons_of_mem _ hd⟩, hnv, hsi2⟩

theorem find_next_isSome_unlocked {β : Type} {visited : List Coordinate}
    {l : List (β × Coordinate)} {q : Coordinate} (d : β)
    (hq : (d, q) ∈ l) (hnv : q ∉ visited) :
    find_next (β := β) false visited l ≠ none := by
  induction l with
  | nil => simp at hq
  | cons e rest ih =>
    obtain ⟨d0, c0⟩ := e
    rw [find_next]
    by_cases hv : c0 ∈ visited
    · rw [if_pos hv]
      rcases List.mem_cons.mp hq with heq | hmem
      · injection heq with h1 h2
        exact absurd hv (h2 ▸ hnv)
      · exact ih hmem
    · rw [if_neg hv]
      simp

theorem find_next_isSome_locked {β : Type} {visited : List Coordinate}
    {l : List (β × Coordinate)} {q : Coordinate} (d : β)
    (hq : (d, q) ∈ l) (hnv : q ∉ visited) (hsi : _get_borough q = "Staten Island") :
    find_next (β := β) true visited l ≠ none := by
  induction l with
  | nil => simp at hq
  | cons e rest ih =>
    obtain ⟨d0, c0⟩ := e
    rw [find_next]
    by_cases hv : c0 ∈ visited
    · rw [if_pos hv]
      rcases List.mem_cons.mp hq with heq | hmem
      · injection heq with h1 h2
        exact absurd hv (h2 ▸ hnv)
      · exact ih hmem
    · rw [if_neg hv]
      by_cases hb : _get_borough c0 = "Staten Island"
      · simp [hb]
      · simp only [if_pos, if_neg hb]
        rcases List.mem_cons.mp hq with heq | hmem
        · injection heq with h1 h2
          exact absurd (h2 ▸ hsi) hb
        · exact ih hmem

theorem siLockIn_nil (locations : List Coordinate) (start : Coordinate) :
    siLockIn locations start [] := by
  intro i h
  simp at h

theorem siLockIn_append (locations : List Coordinate) (start : Coordinate)
    (steps : List RouteStep) (s : RouteStep)
    (h : siLockIn locations start steps)
    (hnew : _get_borough s.coor_a = "Staten Island" →
      (∃ c ∈ locations, _get_borough c = "Staten Island" ∧
        c ∉ start :: steps.map RouteStep.coor_b) →
      _get_borough s.coor_b = "Staten Island") :
    siLockIn locations start (steps ++ [s]) := by
  intro i hi
  rw [List.length_append, List.length_singleton] at hi
  by_cases hlt : i < steps.length
  · have hget : (steps ++ [s]).get ⟨i, by rw [List.length_append]; omega⟩ =
        steps.get ⟨i, hlt⟩ := by
      simp only [List.get_eq_getElem]
      exact List.getElem_append_left hlt
    have htake : (steps ++ [s]).take i = steps.take i :=
      List.take_append_of_le_length (by omega)
    intro hsi hex
    rw [hget] at hsi ⊢
    rw [visitedBefore, htake] at hex
    exact h i hlt hsi hex
  · have hieq : i = steps.length := by omega
    subst hieq
    have hget : (steps ++ [s]).get ⟨steps.length,
        by rw [List.length_append, List.length_singleton]; omega⟩ = s := by
      simp only [List.get_eq_getElem]
      exact List.getElem_concat_length steps s steps.length rfl _
    have htake : (steps ++ [s]).take steps.length = steps := List.take_left steps [s]
    intro hsi hex
    rw [hget] at hsi ⊢
    rw [visitedBefore, htake] at hex
    exact hnew hsi hex

theorem mem_of_getLast?_eq {l : List Coordinate} {a : Coordinate}
    (h : l.getLast? = some a) : a ∈ l := by
  obtain ⟨hh, heq⟩ := List.mem_getLast?_eq_getLast (l := l) (x := a) (by rw [h]; rfl)
  rw [heq]
  exact List.getLast_mem hh

theorem head?_append_of_head? {l1 : List Coordinate} (l2 : List Coordinate)
    {s : Coordinate} (h : l1.head? = some s) : (l1 ++ l2).head? = some s := by
  cases l1 with
  | nil => simp at h
  | cons a r => simpa using h

/-- Main correctness of the greedy loop: from any state reachable along a
simple trail seeded at `start`, with a complete distance index and
enough fuel, the loop returns the endpoint and steps of a trail whose
visited set is exactly the location set, never raising, and every step
taken from Staten Island while Staten Island has unvisited members stays
in Staten Island. -/
theorem greedyLoop_spec {β : Type} (locations : List Coordinate)
    (distances : List (Coordinate × List (β × Coordinate)))
    (hD : IndexComplete distances locations) (start : Coordinate) :
    ∀ (fuel : ℕ) (visited : List Coordinate) (current : Coordinate) (steps : List RouteStep),
      visited.head? = some start →
      visited.getLast? = some current →
      steps = zipAdjacent visited →
      visited.Nodup →
      (∀ c ∈ visited, c ∈ locations) →
      siLockIn locations start steps →
      locations.length - visited.length < fuel →
      ∃ endp fvisited,
        greedyLoop locations distances fuel visited current steps =
          some (endp, zipAdjacent fvisited) ∧
        fvisited.head? = some start ∧ fvisited.getLast? = some endp ∧
        fvisited.Nodup ∧ (∀ c, c ∈ fvisited ↔ c ∈ locations) ∧
        siLockIn locations start (zipAdjacent fvisited) := by
  intro fuel
  induction fuel with
  | zero =>
    intro visited current steps _ _ _ _ _ _ hfu
    omega
  | succ fuel ih =>
    intro visited current steps hhead hlast hsteps hnodup hsub hsi hfuel
    have hcurv : current ∈ visited := mem_of_getLast?_eq hlast
    have hcurl : current ∈ locations := hsub current hcurv
    by_cases hguard : visited.length < locations.length
    · obtain ⟨nn, hnn, hnncomplete, hnnsub⟩ := hD current hcurl
      have hunfold : greedyLoop locations distances (Nat.succ fuel) visited current steps =
          match find_next ((decide (_get_borough current = "Staten Island")) &&
              !((staten_island_coords locations).all (fun c => decide (c ∈ visited))))
              visited nn with
          | none => some (current, steps)
          | some next_location =>
            greedyLoop locations distances fuel (visited ++ [next_location]) next_location
              (steps ++ [⟨current, next_location⟩]) := by
        rw [greedyLoop]
        rw [if_pos hguard, hnn]
      cases hfind : find_next ((decide (_get_borough current = "Staten Island")) &&
          !((staten_island_coords locations).all (fun c => decide (c ∈ visited))))
          visited nn with
      | none =>
        -- break: every location must already be visited
        have hall : ∀ c ∈ locations, c ∈ visited := by
          intro q hq
          by_contra hqnv
          have hqc : q ≠ current := fun he => hqnv (he ▸ hcurv)
          obtain ⟨d, hd⟩ := hnncomplete q hq hqc
          cases hlocked : ((decide (_get_borough current = "Staten Island")) &&
              !((staten_island_coords locations).all (fun c => decide (c ∈ visited)))) with
          | false => exact find_next_isSome_unlocked d hd hqnv (hlocked ▸ hfind)
          | true =>
            have hex : ∃ si ∈ staten_island_coords locations, si ∉ visited := by
              rw [Bool.and_eq_true, Bool.not_eq_true'] at hlocked
              have := hlocked.2
              rw [List.all_eq_false] at this
              obtain ⟨si, hsimem, hsinv⟩ := this
              exact ⟨si, hsimem, by simpa using hsinv⟩
            obtain ⟨si, hsimem, hsinv⟩ := hex
            have hsiloc : si ∈ locations := (List.mem_filter.mp hsimem).1
            have hsib : _get_borough si = "Staten Island" :=
              of_decide_eq_true (List.mem_filter.mp hsimem).2
            have hsic : si ≠ current := fun he => hsinv (he ▸ hcurv)
            obtain ⟨d2, hd2⟩ := hnncomplete si hsiloc hsic
            exact find_next_isSome_locked d2 hd2 hsinv hsib (hlocked ▸ hfind)
        refine ⟨current, visited, ?_, hhead, hlast, hnodup,
          fun c => ⟨fun hc => hsub c hc, fun hc => hall c hc⟩, hsteps ▸ hsi⟩
        rw [hunfold, hfind, hsteps]
      | some next =>
        obtain ⟨⟨d, hdmem⟩, hnextnv, hnextsi⟩ := find_next_some hfind
        have hnextloc : next ∈ locations := (hnnsub (d, next) hdmem).1
        have hnewsteps : steps ++ [⟨current, next⟩] = zipAdjacent (visited ++ [next]) := by
          rw [zipAdjacent_append visited current next hlast, hsteps]
        have hvis_eq : start :: steps.map RouteStep.coor_b = visited := by
          rw [hsteps]
          exact trail_coords visited start hhead
        have hnewsi : siLockIn locations start (steps ++ [⟨current, next⟩]) := by
          apply siLockIn_append locations start steps ⟨current, next⟩ (hsteps ▸ hsi)
          intro hcursi hex
          rw [hvis_eq] at hex
          obtain ⟨c, hcl, hcsi, hcnv⟩ := hex
          apply hnextsi
          rw [Bool.and_eq_true, Bool.not_eq_true']
          refine ⟨decide_eq_true hcursi, ?_⟩
          rw [List.all_eq_false]
          refine ⟨c, List.mem_filter.mpr ⟨hcl, decide_eq_true hcsi⟩, by simpa using hcnv⟩
        obtain ⟨endp, fvisited, hrun, hfh, hfl, hfn, hfm, hfsi⟩ :=
          ih (visited ++ [next]) next (steps ++ [⟨current, next⟩])
            (head?_append_of_head? [next] hhead)
            (by simp)
            hnewsteps
            (by simp [List.nodup_append, hnodup, hnextnv])
            (by
              intro c hc
              rcases List.mem_append.mp hc with h1 | h1
              · exact hsub c h1
              · simp only [List.mem_singleton] at h1
                exact h1 ▸ hnextloc)
            hnewsi
            (by
              rw [List.length_append, List.length_singleton]
              omega)
        refine ⟨endp, fvisited, ?_, hfh, hfl, hfn, hfm, hfsi⟩
        rw [hunfold, hfind]
        exact hrun
    · refine ⟨current, visited, ?_, hhead, hlast, hnodup, ?_, hsteps ▸ hsi⟩
      · rw [greedyLoop, if_neg hguard, hsteps]
      · have hge : locations.length ≤ visited.length := by omega
        have hperm : visited.Perm locations :=
          (List.subperm_of_subset hnodup (fun c hc => hsub c hc)).perm_of_length_le hge
        intro c
        constructor
        · intro hc
          exact hperm.mem_iff.mp hc
        · intro hc
          exact hperm.mem_iff.mpr hc

/-- Top-level spec of the greedy router for a start inside the location
set over a complete index: it returns a route along a simple trail that
covers the distinct locations exactly and respects the Staten Island
lock-in. -/
theorem calculate_shortest_path_spec {β : Type} (locations : List Coordinate)
    (distances : List (Coordinate × List (β × Coordinate))) (start : Coordinate)
    (hD : IndexComplete distances locations) (hstart : start ∈ locations) :
    ∃ (endp : Coordinate) (fvisited : List Coordinate),
      calculate_shortest_path locations start distances =
        some ⟨start, endp, zipAdjacent fvisited⟩ ∧
      fvisited.head? = some start ∧ fvisited.getLast? = some endp ∧
      fvisited.Nodup ∧ (∀ c, c ∈ fvisited ↔ c ∈ locations) ∧
      siLockIn locations start (zipAdjacent fvisited) := by
  obtain ⟨endp, fvisited, hrun, hfh, hfl, hfn, hfm, hfsi⟩ :=
    greedyLoop_spec locations distances hD start (locations.length + 1)
      [start] start []
      (by simp) (by simp) rfl (List.nodup_singleton start)
      (by
        intro c hc
        simp only [List.mem_singleton] at hc
        exact hc ▸ hstart)
      (siLockIn_nil locations start)
      (by simp; omega)
  refine ⟨endp, fvisited, ?_, hfh, hfl, hfn, hfm, hfsi⟩
  rw [calculate_shortest_path, hrun]

/-- The visited trail of a completed run is a permutation of the
de-duplicated location list. -/
theorem fvisited_perm_dedup (locations fvisited : List Coordinate)
    (hfn : fvisited.Nodup) (hfm : ∀ c, c ∈ fvisited ↔ c ∈ locations) :
    fvisited.Perm locations.dedup := by
  rw [List.perm_ext_iff_of_nodup hfn (List.nodup_dedup locations)]
  intro a
  rw [List.mem_dedup]
  exact hfm a

theorem find?_keyrep {κ β : Type} [DecidableEq κ] (a k : κ) (v : β) (h : k ≠ a)
    (m : List (κ × β)) :
    (m.map (fun kv => if kv.1 = a then (a, v) else kv)).find?
        (fun kv => decide (kv.1 = k)) =
      m.find? (fun kv => decide (kv.1 = k)) := by
  induction m with
  | nil => rfl
  | cons e rest ih =>
    simp only [List.map_cons, List.find?]
    by_cases he : e.1 = a
    · have h1 : (decide ((if e.1 = a then (a, v) else e).1 = k)) = false := by
        simp only [if_pos he, decide_eq_false_iff_not]
        exact fun hh => h (Eq.symm hh)
      have h2 : (decide (e.1 = k)) = false := by
        simp only [decide_eq_false_iff_not, he]
        exact fun hh => h (Eq.symm hh)
      rw [h1, h2]
      exact ih
    · have h0 : (if e.1 = a then (a, v) else e) = e := if_neg he
      simp only [h0]
      cases hd : decide (e.1 = k) with
      | true => rfl
      | false => exact ih

theorem dictLookup_insert_ne {κ β : Type} [DecidableEq κ] (m : List (κ × β))
    (a k : κ) (v : β) (h : k ≠ a) :
    dictLookup (dictInsert m a v) k = dictLookup m k := by
  rw [dictInsert]
  by_cases hmem : (m.any fun kv => decide (kv.1 = a)) = true
  · rw [if_pos hmem, dictLookup, dictLookup, find?_keyrep a k v h m]
  · rw [if_neg hmem, dictLookup, dictLookup, List.find?_append]
    have : ([(a, v)].find? fun kv => decide (kv.1 = k)) = none := by
      simp only [List.find?]
      have hfa : (decide ((a, v).1 = k)) = false := by
        simp only [decide_eq_false_iff_not]
        exact fun hh => h (Eq.symm hh)
      rw [hfa]
    rw [this]
    cases m.find? fun kv => decide (kv.1 = k) <;> rfl

theorem dictLookup_calc_none {β : Type} (dist : Coordinate → Coordinate → β)
    (lt : β → β → Bool) (dflt : β × Coordinate) (locations : List Coordinate)
    (p : Coordinate) (hp : p ∉ locations) :
    dictLookup (calculate_distances dist lt dflt locations) p = none := by
  rw [calculate_distances]
  have hgen : ∀ (l : List Coordinate) (acc : List (Coordinate × List (β × Coordinate))),
      p ∉ l → dictLookup acc p = none →
      dictLookup (l.foldl (fun distance_map coord_a =>
        dictInsert distance_map coord_a
          (heapify lt dflt ((locations.filter (fun coord_b => decide (coord_a ≠ coord_b))).map
            (fun coord_b => (dist coord_a coord_b, coord_b))))) acc) p = none := by
    intro l
    induction l with
    | nil =>
      intro acc _ hacc
      exact hacc
    | cons a rest ih =>
      intro acc hnl hacc
      simp only [List.foldl_cons]
      apply ih
      · exact fun hmem => hnl (List.mem_cons_of_mem a hmem)
      · rw [dictLookup_insert_ne]
        · exact hacc
        · exact fun he => hnl (he ▸ List.mem_cons_self a rest)
  exact hgen locations [] hp rfl

theorem greedyLoop_succ {β : Type} (locations : List Coordinate)
    (distances : List (Coordinate × List (β × Coordinate))) (fuel : ℕ)
    (visited : List Coordinate) (current : Coordinate) (steps : List RouteStep) :
    greedyLoop locations distances (fuel + 1) visited current steps =
      (if visited.length < locations.length then
        match dictLookup distances current with
        | none => none
        | some nearest_neighbors =>
          match find_next ((decide (_get_borough current = "Staten Island")) &&
              !((staten_island_coords locations).all (fun c => decide (c ∈ visited))))
              visited nearest_neighbors with
          | none => some (current, steps)
          | some next_location =>
            greedyLoop locations distances fuel (visited ++ [next_location]) next_location
              (steps ++ [⟨current, next_location⟩])
      else some (current, steps)) := rfl

/-- C9 (amended).  With duplicate coordinates in the input list (d
distinct values among more entries), the greedy router still terminates:
it returns a route of exactly d - 1 steps touching each distinct
coordinate at most once — and (correcting the claim's final clause) when
d is at least 2 the validator ACCEPTS that route, because the visited
set equals the de-duplicated expected set, so nothing is flagged
missing. -/
theorem c9_duplicates_d_minus_one_steps_validator_accepts {β : Type} (locations : List Coordinate)
    (distances : List (Coordinate × List (β × Coordinate))) (start : Coordinate)
    (hD : IndexComplete distances locations) (hstart : start ∈ locations)
    (_hdup : locations.dedup.length < locations.length) :
    ∃ r : Route, calculate_shortest_path locations start distances = some r ∧
      r.start = start ∧
      r.steps.length = locations.dedup.length - 1 ∧
      (all_route_coords r.steps).Nodup ∧
      (2 ≤ locations.dedup.length → check_route locations r = true) := by
  obtain ⟨endp, fvisited, hrun, hfh, hfl, hfn, hfm, hfsi⟩ :=
    calculate_shortest_path_spec locations distances start hD hstart
  have hperm : fvisited.Perm locations.dedup := fvisited_perm_dedup locations fvisited hfn hfm
  have hlen : fvisited.length = locations.dedup.length := hperm.length_eq
  refine ⟨⟨start, endp, zipAdjacent fvisited⟩, hrun, rfl, ?_, ?_, ?_⟩
  · rw [zipAdjacent_length, hlen]
  · match fvisited, hfh with
    | a :: tail, _ =>
      cases tail with
      | nil => simp [zipAdjacent, all_route_coords]
      | cons b rest =>
        rw [all_route_coords_zipAdjacent (a :: b :: rest) (by simp)]
        exact hfn
  · intro h2
    exact check_route_of_trail locations fvisited start endp hfh hfl hfn hfm (hlen ▸ h2)

/-- C10 (amended).  For a start inside the (distinct or not) point set
and a complete index, every dictionary lookup of the greedy router
succeeds (no error is raised); for a start outside the point set, the
first lookup raises KeyError — provided the set has AT LEAST TWO
members.  (For a one-member set the loop guard `1 < 1` fails and no
lookup happens; see the counterexample.) -/
theorem c10_start_membership_lookup {β : Type} (dist : Coordinate → Coordinate → β)
    (lt : β → β → Bool) (dflt : β × Coordinate) (locations : List Coordinate)
    (distances : List (Coordinate × List (β × Coordinate))) (start : Coordinate) :
    (IndexComplete distances locations → start ∈ locations →
      (calculate_shortest_path locations start distances).isSome = true) ∧
    (start ∉ locations → 2 ≤ locations.length →
      calculate_shortest_path locations start
        (calculate_distances dist lt dflt locations) = none) := by
  constructor
  · intro hD hstart
    obtain ⟨endp, fvisited, hrun, _⟩ :=
      calculate_shortest_path_spec locations distances start hD hstart
    rw [hrun]
    rfl
  · intro hout hlen
    rw [calculate_shortest_path, greedyLoop_succ]
    rw [if_pos (by simp; omega), dictLookup_calc_none dist lt dflt locations start hout]

/-- Evaluation of one step of the best-start fold when the router
succeeds. -/
theorem findBestLoop_cons_eval {β : Type} [LinearOrder β] (total : Route → β)
    (builder : Coordinate → Option Route) (c0 : Coordinate) (rest : List Coordinate)
    (best : Option Coordinate) (bestD : Option β) (r0 : Route)
    (hb0 : builder c0 = some r0) :
    findBestLoop total builder (c0 :: rest) best bestD =
      (if (match bestD with
          | none => true
          | some bd => decide (total r0 < bd)) = true then
        findBestLoop total builder rest (some c0) (some (total r0))
      else findBestLoop total builder rest best bestD) := by
  rw [findBestLoop, hb0]

/-- Evaluation of one step of the best-start fold when the router
raises. -/
theorem findBestLoop_cons_none_eval {β : Type} [LinearOrder β] (total : Route → β)
    (builder : Coordinate → Option Route) (c0 : Coordinate) (rest : List Coordinate)
    (best : Option Coordinate) (bestD : Option β)
    (hb0 : builder c0 = none) :
    findBestLoop total builder (c0 :: rest) best bestD = none := by
  rw [findBestLoop, hb0]

/-- Minimality invariant of the best-start fold: a successful run returns
a candidate whose route exists and whose total is at most every
processed candidate total and at most the incoming best distance. -/
theorem findBestLoop_min {β : Type} [LinearOrder β] (total : Route → β)
    (builder : Coordinate → Option Route) :
    ∀ (l : List Coordinate) (best : Option Coordinate) (bestD : Option β) (s : Coordinate),
      (∀ b, best = some b → ∃ rb, builder b = some rb ∧ bestD = some (total rb)) →
      findBestLoop total builder l best bestD = some (some s) →
      ∃ rs, builder s = some rs ∧
        (∀ c ∈ l, ∃ rc, builder c = some rc ∧ total rs ≤ total rc) ∧
        (∀ bd, bestD = some bd → total rs ≤ bd) ∧
        (s ∈ l ∨ best = some s) := by
  intro l
  induction l with
  | nil =>
    intro best bestD s hbb hrun
    rw [findBestLoop] at hrun
    injection hrun with h1
    obtain ⟨rb, hrb, hbd⟩ := hbb s h1
    refine ⟨rb, hrb, by simp, ?_, Or.inr h1⟩
    intro bd hbd2
    rw [hbd] at hbd2
    injection hbd2 with h2
    rw [h2]
  | cons c0 rest ih =>
    intro best bestD s hbb hrun
    cases hb0 : builder c0 with
    | none =>
      rw [findBestLoop_cons_none_eval total builder c0 rest best bestD hb0] at hrun
      exact absurd hrun (by simp)
    | some r0 =>
      rw [findBestLoop_cons_eval total builder c0 rest best bestD r0 hb0] at hrun
      cases bestD with
      | none =>
        rw [if_pos rfl] at hrun
        obtain ⟨rs, hrs, hmin, hbdle, hsmem⟩ := ih (some c0) (some (total r0)) s
          (by
            intro b hb
            injection hb with hb
            subst hb
            exact ⟨r0, hb0, rfl⟩) hrun
        refine ⟨rs, hrs, ?_, by simp, ?_⟩
        · intro c hc
          rcases List.mem_cons.mp hc with he | hm
          · subst he
            exact ⟨r0, hb0, hbdle (total r0) rfl⟩
          · exact hmin c hm
        · rcases hsmem with h | h
          · exact Or.inl (List.mem_cons_of_mem _ h)
          · injection h with h
            exact Or.inl (h ▸ List.mem_cons_self _ _)
      | some bd0 =>
        by_cases hlt : total r0 < bd0
        · rw [if_pos (decide_eq_true hlt)] at hrun
          obtain ⟨rs, hrs, hmin, hbdle, hsmem⟩ := ih (some c0) (some (total r0)) s
            (by
              intro b hb
              injection hb with hb
              subst hb
              exact ⟨r0, hb0, rfl⟩) hrun
          refine ⟨rs, hrs, ?_, ?_, ?_⟩
          · intro c hc
            rcases List.mem_cons.mp hc with he | hm
            · subst he
              exact ⟨r0, hb0, hbdle (total r0) rfl⟩
            · exact hmin c hm
          · intro bd hbd
            injection hbd with hbd
            subst hbd
            exact le_of_lt (lt_of_le_of_lt (hbdle (total r0) rfl) hlt)
          · rcases hsmem with h | h
            · exact Or.inl (List.mem_cons_of_mem _ h)
            · injection h with h
              exact Or.inl (h ▸ List.mem_cons_self _ _)
        · rw [if_neg (fun hc => hlt (of_decide_eq_true hc))] at hrun
          obtain ⟨rs, hrs, hmin, hbdle, hsmem⟩ := ih best (some bd0) s hbb hrun
          refine ⟨rs, hrs, ?_, hbdle, ?_⟩
          · intro c hc
            rcases List.mem_cons.mp hc with he | hm
            · subst he
              exact ⟨r0, hb0, le_trans (hbdle bd0 rfl) (not_lt.mp hlt)⟩
            · exact hmin c hm
          · rcases hsmem with h | h
            · exact Or.inl (List.mem_cons_of_mem _ h)
            · exact Or.inr h

/-- First-seen-wins invariant of the best-start fold: either the
accumulator wins (and nothing processed strictly beat the incoming best
distance), or the winner is a processed candidate that strictly beat the
incoming best distance and every candidate before its first occurrence. -/
theorem findBestLoop_first {β : Type} [LinearOrder β] (total : Route → β)
    (builder : Coordinate → Option Route) :
    ∀ (l : List Coordinate) (best : Option Coordinate) (bestD : Option β) (s : Coordinate),
      (∀ b, best = some b → ∃ rb, builder b = some rb ∧ bestD = some (total rb)) →
      findBestLoop total builder l best bestD = some (some s) →
      (best = some s ∧ (∀ bd, bestD = some bd →
        ∀ c ∈ l, ∃ rc, builder c = some rc ∧ bd ≤ total rc)) ∨
      (s ∈ l ∧ ∃ rs, builder s = some rs ∧
        (∀ bd, bestD = some bd → total rs < bd) ∧
        (∀ c ∈ l.take (l.indexOf s), ∃ rc, builder c = some rc ∧
          total rs < total rc)) := by
  intro l
  induction l with
  | nil =>
    intro best bestD s hbb hrun
    rw [findBestLoop] at hrun
    injection hrun with h1
    exact Or.inl ⟨h1, fun bd _ c hc => absurd hc (List.not_mem_nil c)⟩
  | cons c0 rest ih =>
    intro best bestD s hbb hrun
    cases hb0 : builder c0 with
    | none =>
      rw [findBestLoop_cons_none_eval total builder c0 rest best bestD hb0] at hrun
      exact absurd hrun (by simp)
    | some r0 =>
      have hballnew : ∀ b, (some c0 : Option Coordinate) = some b →
          ∃ rb, builder b = some rb ∧ (some (total r0) : Option β) = some (total rb) := by
        intro b hb
        injection hb with hb
        subst hb
        exact ⟨r0, hb0, rfl⟩
      rw [findBestLoop_cons_eval total builder c0 rest best bestD r0 hb0] at hrun
      cases bestD with
      | none =>
        rw [if_pos rfl] at hrun
        rcases ih (some c0) (some (total r0)) s hballnew hrun with ⟨ha1, ha2⟩ | ⟨hb1, rs, hrs, hstrict, htake⟩
        · -- s = c0, the new accumulator
          injection ha1 with ha1
          subst ha1
          refine Or.inr ⟨List.mem_cons_self _ _, r0, hb0, by simp, ?_⟩
          simp [List.indexOf_cons_self]
        · refine Or.inr ⟨List.mem_cons_of_mem _ hb1, rs, hrs, by simp, ?_⟩
          by_cases hc0s : c0 = s
          · subst hc0s
            simp [List.indexOf_cons_self]
          · rw [List.indexOf_cons_ne _ (by simpa using hc0s), List.take_succ_cons]
            intro c hc
            rcases List.mem_cons.mp hc with he | hm
            · subst he
              exact ⟨r0, hb0, hstrict (total r0) rfl⟩
            · exact htake c hm
      | some bd0 =>
        by_cases hlt : total r0 < bd0
        · rw [if_pos (decide_eq_true hlt)] at hrun
          rcases ih (some c0) (some (total r0)) s hballnew hrun with ⟨ha1, ha2⟩ | ⟨hb1, rs, hrs, hstrict, htake⟩
          · injection ha1 with ha1
            subst ha1
            refine Or.inr ⟨List.mem_cons_self _ _, r0, hb0, ?_, ?_⟩
            · intro bd hbd
              injection hbd with hbd
              subst hbd
              exact hlt
            · simp [List.indexOf_cons_self]
          · refine Or.inr ⟨List.mem_cons_of_mem _ hb1, rs, hrs, ?_, ?_⟩
            · intro bd hbd
              injection hbd with hbd
              subst hbd
              exact lt_trans (hstrict (total r0) rfl) hlt
            · by_cases hc0s : c0 = s
              · subst hc0s
                simp [List.indexOf_cons_self]
              · rw [List.indexOf_cons_ne _ (by simpa using hc0s), List.take_succ_cons]
                intro c hc
                rcases List.mem_cons.mp hc with he | hm
                · subst he
                  exact ⟨r0, hb0, hstrict (total r0) rfl⟩
                · exact htake c hm
        · rw [if_neg (fun hc => hlt (of_decide_eq_true hc))] at hrun
          rcases ih best (some bd0) s hbb hrun with ⟨ha1, ha2⟩ | ⟨hb1, rs, hrs, hstrict, htake⟩
          · refine Or.inl ⟨ha1, ?_⟩
            intro bd hbd c hc
            injection hbd with hbd
            subst hbd
            rcases List.mem_cons.mp hc with he | hm
            · subst he
              exact ⟨r0, hb0, not_lt.mp hlt⟩
            · exact ha2 bd0 rfl c hm
          · refine Or.inr ⟨List.mem_cons_of_mem _ hb1, rs, hrs, hstrict, ?_⟩
            by_cases hc0s : c0 = s
            · subst hc0s
              simp [List.indexOf_cons_self]
            · rw [List.indexOf_cons_ne _ (by simpa using hc0s), List.take_succ_cons]
              intro c hc
              rcases List.mem_cons.mp hc with he | hm
              · subst he
                exact ⟨r0, hb0, lt_of_lt_of_le (hstrict bd0 rfl) (not_lt.mp hlt)⟩
              · exact htake c hm

/-- C5.  A successful `find_best_starting_point` run returns a candidate
from the location list whose route's total distance is at most the total
distance of the route built from every candidate, and every candidate
listed before the winner's first occurrence has a strictly larger total
(lowest wins, first-seen wins ties).  `builder` is the dynamically
dispatched `self.calculate_shortest_path`. -/
theorem c5_find_best_optimal_first_seen_ties {β : Type} [LinearOrder β] [AddCommMonoid β]
    (dist : Coordinate → Coordinate → β) (locations : List Coordinate)
    (builder : Coordinate → List (Coordinate × List (β × Coordinate)) → Option Route)
    (s : Coordinate)
    (h : find_best_starting_point dist locations builder = some (some s)) :
    s ∈ locations ∧
    ∃ rs, builder s (calculate_distances dist floatLt (0, coord0) locations) = some rs ∧
      (∀ c ∈ locations, ∃ rc,
        builder c (calculate_distances dist floatLt (0, coord0) locations) = some rc ∧
        total_distance dist rs ≤ total_distance dist rc) ∧
      (∀ c ∈ locations.take (locations.indexOf s), ∃ rc,
        builder c (calculate_distances dist floatLt (0, coord0) locations) = some rc ∧
        total_distance dist rs < total_distance dist rc) := by
  rw [find_best_starting_point] at h
  obtain ⟨rs, hrs, hmin, _, hsmem⟩ := findBestLoop_min (total_distance dist)
    (fun c => builder c (calculate_distances dist floatLt (0, coord0) locations))
    locations none none s (by intro b hb; exact absurd hb (by simp)) h
  have hmem : s ∈ locations := by
    rcases hsmem with hm | hm
    · exact hm
    · exact absurd hm (by simp)
  rcases findBestLoop_first (total_distance dist)
      (fun c => builder c (calculate_distances dist floatLt (0, coord0) locations))
      locations none none s (by intro b hb; exact absurd hb (by simp)) h with
    ⟨ha, _⟩ | ⟨_, rs2, hrs2, _, htake⟩
  · exact absurd ha (by simp)
  · have hrseq : rs2 = rs := by
      rw [hrs] at hrs2
      injection hrs2 with h2
      exact h2.symm
    subst hrseq
    exact ⟨hmem, rs2, hrs, hmin, htake⟩

/-- C4 (amended).  A route with zero steps is ALWAYS reported invalid by
the validator — the source's `else` branch flags `Route has no steps`
with no exception for small expected sets; and for the empty point set,
route construction returns the zero-step route without error (which the
validator then rejects). -/
theorem c4_zero_step_route_always_invalid :
    (∀ (locations : List Coordinate) (r : Route), r.steps = [] →
      check_route locations r = false) ∧
    (∀ (β : Type) (start : Coordinate)
      (distances : List (Coordinate × List (β × Coordinate))),
      calculate_shortest_path [] start distances = some ⟨start, start, []⟩) := by
  constructor
  · intro locations r hsteps
    rw [check_route, endpoints_ok, hsteps]
    simp
  · intro β start distances
    rfl

/-- C4, witness: a concrete zero-step route over a one-point expected
set is rejected, and construction over the empty set returns the
zero-step route. -/
theorem c4_zero_step_witness :
    ((Route.mk mhA mhA []).steps = [] ∧ check_route [siA] (Route.mk mhA mhA []) = false) ∧
    calculate_shortest_path [] siB
        ([] : List (Coordinate × List (ℕ × Coordinate))) = some ⟨siB, siB, []⟩ :=
  ⟨⟨rfl, c4_zero_step_route_always_invalid.1 [siA] ⟨mhA, mhA, []⟩ rfl⟩,
    c4_zero_step_route_always_invalid.2 ℕ siB []⟩

/-- C9, witness at the duplicated input `[mhA, mhA, bkC]`. -/
theorem c9_duplicates_witness :
    (indexCompleteB (calculate_distances unitDist floatLt dfltN [mhA, mhA, bkC])
        [mhA, mhA, bkC] = true ∧
      mhA ∈ [mhA, mhA, bkC] ∧
      ([mhA, mhA, bkC] : List Coordinate).dedup.length < ([mhA, mhA, bkC] : List Coordinate).length) ∧
    (∃ r : Route, calculate_shortest_path [mhA, mhA, bkC] mhA
        (calculate_distances unitDist floatLt dfltN [mhA, mhA, bkC]) = some r ∧
      r.start = mhA ∧
      r.steps.length = ([mhA, mhA, bkC] : List Coordinate).dedup.length - 1 ∧
      (all_route_coords r.steps).Nodup ∧
      (2 ≤ ([mhA, mhA, bkC] : List Coordinate).dedup.length →
        check_route [mhA, mhA, bkC] r = true)) :=
  ⟨⟨by decide, by decide, by decide⟩,
    c9_duplicates_d_minus_one_steps_validator_accepts [mhA, mhA, bkC]
      (calculate_distances unitDist floatLt dfltN [mhA, mhA, bkC]) mhA
      (indexComplete_of_B _ _ (by decide)) (by decide) (by decide)⟩

/-- C10, witness: with the two-point set `[mhA, bkC]` and its own
`calculate_distances` index, an inside start succeeds and the outside
start `siA` raises at the first lookup. -/
theorem c10_membership_witness :
    (calculate_shortest_path [mhA, bkC] mhA
        (calculate_distances unitDist floatLt dfltN [mhA, bkC])).isSome = true ∧
    calculate_shortest_path [mhA, bkC] siA
        (calculate_distances unitDist floatLt dfltN [mhA, bkC]) = none :=
  ⟨(c10_start_membership_lookup unitDist floatLt dfltN [mhA, bkC]
      (calculate_distances unitDist floatLt dfltN [mhA, bkC]) mhA).1
      (indexComplete_of_B _ _ (by decide)) (by decide),
    (c10_start_membership_lookup unitDist floatLt dfltN [mhA, bkC]
      (calculate_distances unitDist floatLt dfltN [mhA, bkC]) siA).2
      (by decide) (by decide)⟩

/-- C5, witness on the two-point set `[mhA, bkC]` with the greedy router
as builder: the optimizer returns the first-seen candidate `mhA`. -/
theorem c5_find_best_witness :
    find_best_starting_point unitDist [mhA, bkC]
        (fun st D => calculate_shortest_path [mhA, bkC] st D) = some (some mhA) ∧
    (mhA ∈ [mhA, bkC] ∧
      ∃ rs, calculate_shortest_path [mhA, bkC] mhA
          (calculate_distances unitDist floatLt (0, coord0) [mhA, bkC]) = some rs ∧
        (∀ c ∈ [mhA, bkC], ∃ rc,
          calculate_shortest_path [mhA, bkC] c
            (calculate_distances unitDist floatLt (0, coord0) [mhA, bkC]) = some rc ∧
          total_distance unitDist rs ≤ total_distance unitDist rc) ∧
        (∀ c ∈ ([mhA, bkC] : List Coordinate).take (([mhA, bkC] : List Coordinate).indexOf mhA), ∃ rc,
          calculate_shortest_path [mhA, bkC] c
            (calculate_distances unitDist floatLt (0, coord0) [mhA, bkC]) = some rc ∧
          total_distance unitDist rs < total_distance unitDist rc)) :=
  ⟨by decide, c5_find_best_optimal_first_seen_ties unitDist [mhA, bkC]
    (fun st D => calculate_shortest_path [mhA, bkC] st D) mhA (by decide)⟩

theorem dictLookup_insert_self {κ β : Type} [DecidableEq κ] (m : List (κ × β)) (k : κ) (v : β) :
    dictLookup (dictInsert m k v) k = some v := by
  rw [dictInsert]
  by_cases hmem : (m.any fun kv => decide (kv.1 = k)) = true
  · rw [if_pos hmem, dictLookup]
    rw [List.any_eq_true] at hmem
    obtain ⟨e, he, hek⟩ := hmem
    have hek2 : e.1 = k := of_decide_eq_true hek
    clear hek
    induction m with
    | nil => simp at he
    | cons e0 rest ih =>
      simp only [List.map_cons, List.find?]
      by_cases he0 : e0.1 = k
      · have h1 : (decide ((if e0.1 = k then (k, v) else e0).1 = k)) = true := by
          simp [if_pos he0]
        rw [h1]
        simp [if_pos he0]
      · have h1 : (decide ((if e0.1 = k then (k, v) else e0).1 = k)) = false := by
          simp [if_neg he0, he0]
        rw [h1]
        rcases List.mem_cons.mp he with hee | hee
        · exact absurd (hee ▸ hek2) he0
        · exact ih hee
  · rw [if_neg hmem, dictLookup, List.find?_append]
    have hnone : (m.find? fun kv => decide (kv.1 = k)) = none := by
      rw [List.find?_eq_none]
      intro x hx
      simp only [Bool.not_eq_true, decide_eq_false_iff_not]
      intro hxk
      exact hmem (List.any_eq_true.mpr ⟨x, hx, decide_eq_true hxk⟩)
    rw [hnone]
    simp [List.find?]

theorem dictLookup_isSome_of_key {κ β : Type} [DecidableEq κ] (m : List (κ × β)) (k : κ)
    (h : k ∈ m.map Prod.fst) : ∃ v, dictLookup m k = some v := by
  induction m with
  | nil => simp at h
  | cons e rest ih =>
    rw [dictLookup, List.find?]
    by_cases he : e.1 = k
    · rw [decide_eq_true he]
      exact ⟨e.2, rfl⟩
    · rw [decide_eq_false he]
      rw [List.map_cons] at h
      rcases List.mem_cons.mp h with hh | hh
      · exact absurd hh.symm he
      · exact ih hh

theorem dictInsert_keys_sub {κ β : Type} [DecidableEq κ] (m : List (κ × β)) (k : κ) (v : β) :
    ∀ k2 ∈ (dictInsert m k v).map Prod.fst, k2 = k ∨ k2 ∈ m.map Prod.fst := by
  intro k2 hk2
  rw [dictInsert] at hk2
  by_cases hmem : (m.any fun kv => decide (kv.1 = k)) = true
  · rw [if_pos hmem, List.map_map] at hk2
    rcases List.mem_map.mp hk2 with ⟨e, he, heq⟩
    by_cases hek : e.1 = k
    · left
      rw [← heq]
      simp [Function.comp, if_pos hek]
    · right
      rw [← heq]
      simp only [Function.comp, if_neg hek]
      exact List.mem_map.mpr ⟨e, he, rfl⟩
  · rw [if_neg hmem, List.map_append] at hk2
    rcases List.mem_append.mp hk2 with hh | hh
    · right; exact hh
    · left; simpa using hh

theorem dictLookup_insert_isSome {κ β : Type} [DecidableEq κ] (m : List (κ × β))
    (k k2 : κ) (v : β) (h : ∃ w, dictLookup m k2 = some w) :
    ∃ w, dictLookup (dictInsert m k v) k2 = some w := by
  by_cases hk : k2 = k
  · subst hk
    exact ⟨v, dictLookup_insert_self m k2 v⟩
  · rw [dictLookup_insert_ne m k k2 v hk]
    exact h

/-- Proof-side reformulation of `buildClusters`: both branches of its
fold are one `dictInsert` of the old member list (default empty)
extended by the new coordinate. -/
theorem buildClusters_eq (locations : List Coordinate) (cluster_labels : List ℕ) :
    buildClusters locations cluster_labels =
      (locations.zip cluster_labels).foldl
        (fun clusters cl =>
          dictInsert clusters cl.2 (((dictLookup clusters cl.2).getD []) ++ [cl.1])) [] := by
  rw [buildClusters]
  have hf : (fun (clusters : List (ℕ × List Coordinate)) (cl : Coordinate × ℕ) =>
      match dictLookup clusters cl.2 with
      | some members => dictInsert clusters cl.2 (members ++ [cl.1])
      | none => dictInsert clusters cl.2 [cl.1]) =
      (fun clusters cl =>
        dictInsert clusters cl.2 (((dictLookup clusters cl.2).getD []) ++ [cl.1])) := by
    funext clusters cl
    cases dictLookup clusters cl.2 <;> rfl
  rw [hf]

theorem buildClusters_values_sub (locations : List Coordinate) (cluster_labels : List ℕ) :
    ∀ lbl ms, dictLookup (buildClusters locations cluster_labels) lbl = some ms →
      ∀ c ∈ ms, c ∈ locations := by
  rw [buildClusters_eq]
  have haux : ∀ (pairs : List (Coordinate × ℕ)) (acc : List (ℕ × List Coordinate)),
      (∀ cl ∈ pairs, cl.1 ∈ locations) →
      (∀ lbl ms, dictLookup acc lbl = some ms → ∀ c ∈ ms, c ∈ locations) →
      ∀ lbl ms, dictLookup (pairs.foldl
          (fun clusters cl =>
            dictInsert clusters cl.2 (((dictLookup clusters cl.2).getD []) ++ [cl.1]))
          acc) lbl = some ms →
        ∀ c ∈ ms, c ∈ locations := by
    intro pairs
    induction pairs with
    | nil =>
      intro acc _ hacc
      exact hacc
    | cons cl rest ih =>
      intro acc hp hacc
      simp only [List.foldl_cons]
      apply ih
      · intro cl2 h2
        exact hp cl2 (List.mem_cons_of_mem _ h2)
      · intro lbl ms hms c hc
        by_cases hlbl : lbl = cl.2
        · subst hlbl
          rw [dictLookup_insert_self] at hms
          injection hms with hms
          subst hms
          rcases List.mem_append.mp hc with hc1 | hc1
          · cases hlk : dictLookup acc cl.2 with
            | none =>
              rw [hlk] at hc1
              simp at hc1
            | some old =>
              rw [hlk] at hc1
              exact hacc cl.2 old hlk c hc1
          · simp only [List.mem_singleton] at hc1
            exact hc1 ▸ hp cl (List.mem_cons_self _ _)
        · rw [dictLookup_insert_ne _ _ _ _ hlbl] at hms
          exact hacc lbl ms hms c hc
  intro lbl ms hms
  refine haux (locations.zip cluster_labels) [] ?_ (by intro lbl2 ms2 h2; simp [dictLookup] at h2) lbl ms hms
  intro cl hcl
  exact (List.of_mem_zip hcl).1

theorem buildClusters_keys_sub (locations : List Coordinate) (cluster_labels : List ℕ) :
    ∀ k ∈ (buildClusters locations cluster_labels).map Prod.fst,
      k ∈ (locations.zip cluster_labels).map Prod.snd := by
  rw [buildClusters_eq]
  have haux : ∀ (pairs : List (Coordinate × ℕ)) (acc : List (ℕ × List Coordinate)),
      (∀ k ∈ acc.map Prod.fst, k ∈ (locations.zip cluster_labels).map Prod.snd) →
      (∀ cl ∈ pairs, cl.2 ∈ (locations.zip cluster_labels).map Prod.snd) →
      ∀ k ∈ ((pairs.foldl
          (fun clusters cl =>
            dictInsert clusters cl.2 (((dictLookup clusters cl.2).getD []) ++ [cl.1]))
          acc)).map Prod.fst,
        k ∈ (locations.zip cluster_labels).map Prod.snd := by
    intro pairs
    induction pairs with
    | nil =>
      intro acc hacc _
      exact hacc
    | cons cl rest ih =>
      intro acc hacc hp
      simp only [List.foldl_cons]
      apply ih
      · intro k hk
        rcases dictInsert_keys_sub acc cl.2 _ k hk with hk1 | hk1
        · exact hk1 ▸ hp cl (List.mem_cons_self _ _)
        · exact hacc k hk1
      · intro cl2 h2
        exact hp cl2 (List.mem_cons_of_mem _ h2)
  intro k hk
  refine haux (locations.zip cluster_labels) [] (by simp) ?_ k hk
  intro cl hcl
  exact List.mem_map.mpr ⟨cl, hcl, rfl⟩

theorem buildClusters_key_of_label (locations : List Coordinate) (cluster_labels : List ℕ) :
    ∀ lbl ∈ (locations.zip cluster_labels).map Prod.snd,
      ∃ ms, dictLookup (buildClusters locations cluster_labels) lbl = some ms := by
  rw [buildClusters_eq]
  have haux : ∀ (pairs : List (Coordinate × ℕ)) (acc : List (ℕ × List Coordinate)) (lbl : ℕ),
      (lbl ∈ pairs.map Prod.snd ∨ ∃ ms, dictLookup acc lbl = some ms) →
      ∃ ms, dictLookup (pairs.foldl
          (fun clusters cl =>
            dictInsert clusters cl.2 (((dictLookup clusters cl.2).getD []) ++ [cl.1]))
          acc) lbl = some ms := by
    intro pairs
    induction pairs with
    | nil =>
      intro acc lbl h
      rcases h with h | h
      · simp at h
      · exact h
    | cons cl rest ih =>
      intro acc lbl h
      simp only [List.foldl_cons]
      apply ih
      by_cases hlbl : lbl = cl.2
      · subst hlbl
        exact Or.inr ⟨_, dictLookup_insert_self _ _ _⟩
      · rcases h with h | h
        · rw [List.map_cons] at h
          rcases List.mem_cons.mp h with h1 | h1
          · exact absurd h1 hlbl
          · exact Or.inl h1
        · exact Or.inr (dictLookup_insert_isSome _ _ _ _ h)
  intro lbl hlbl
  exact haux (locations.zip cluster_labels) [] lbl (Or.inl hlbl)

theorem scan_candidates_some {β : Type} {visited candidates : List Coordinate}
    {l : List (β × Coordinate)} {c : Coordinate}
    (h : scan_candidates visited candidates l = some c) :
    c ∈ candidates ∧ c ∉ visited ∧ ∃ d, (d, c) ∈ l := by
  induction l with
  | nil => simp [scan_candidates] at h
  | cons e rest ih =>
    obtain ⟨d0, c0⟩ := e
    rw [scan_candidates] at h
    by_cases hc0 : c0 ∈ candidates ∧ c0 ∉ visited
    · rw [if_pos hc0] at h
      injection h with h
      subst h
      exact ⟨hc0.1, hc0.2, d0, List.mem_cons_self _ _⟩
    · rw [if_neg hc0] at h
      obtain ⟨h1, h2, d, hd⟩ := ih h
      exact ⟨h1, h2, d, List.mem_cons_of_mem _ hd⟩

theorem scan_candidates_ne_none {β : Type} {visited candidates : List Coordinate}
    {l : List (β × Coordinate)} {q : Coordinate} (d : β)
    (hq : (d, q) ∈ l) (hqc : q ∈ candidates) (hqnv : q ∉ visited) :
    scan_candidates visited candidates l ≠ none := by
  induction l with
  | nil => simp at hq
  | cons e rest ih =>
    obtain ⟨d0, c0⟩ := e
    rw [scan_candidates]
    by_cases hc0 : c0 ∈ candidates ∧ c0 ∉ visited
    · rw [if_pos hc0]
      simp
    · rw [if_neg hc0]
      rcases List.mem_cons.mp hq with heq | hmem
      · injection heq with h1 h2
        exact absurd ⟨h2 ▸ hqc, h2 ▸ hqnv⟩ hc0
      · exact ih hmem

theorem find_nearest_cluster_spec {β : Type} (dist : Coordinate → Coordinate → β)
    (lt : β → β → Bool) (cluster_centers : ℕ → Coordinate) (from_point : Coordinate)
    (ids : List ℕ) (hne : ids ≠ []) :
    ∃ cid, find_nearest_cluster dist lt cluster_centers from_point ids = some cid ∧
      cid ∈ ids := by
  have haux : ∀ (rest : List ℕ) (b : ℕ),
      ∃ cid, rest.foldl (fun nearest cluster_id =>
        match nearest with
        | none => some cluster_id
        | some b2 =>
          if lt (dist from_point (cluster_centers cluster_id))
              (dist from_point (cluster_centers b2)) then some cluster_id
          else some b2) (some b) = some cid ∧ (cid = b ∨ cid ∈ rest) := by
    intro rest
    induction rest with
    | nil =>
      intro b
      exact ⟨b, rfl, Or.inl rfl⟩
    | cons x xs ih =>
      intro b
      simp only [List.foldl_cons]
      by_cases hx : lt (dist from_point (cluster_centers x))
          (dist from_point (cluster_centers b)) = true
      · rw [if_pos hx]
        obtain ⟨cid, hrun, hmem⟩ := ih x
        refine ⟨cid, hrun, ?_⟩
        rcases hmem with h | h
        · exact Or.inr (h ▸ List.mem_cons_self _ _)
        · exact Or.inr (List.mem_cons_of_mem _ h)
      · rw [if_neg hx]
        obtain ⟨cid, hrun, hmem⟩ := ih b
        refine ⟨cid, hrun, ?_⟩
        rcases hmem with h | h
        · exact Or.inl h
        · exact Or.inr (List.mem_cons_of_mem _ h)
  match ids, hne with
  | x :: xs, _ =>
    rw [find_nearest_cluster]
    simp only [List.foldl_cons]
    obtain ⟨cid, hrun, hmem⟩ := haux xs x
    refine ⟨cid, hrun, ?_⟩
    rcases hmem with h | h
    · exact h ▸ List.mem_cons_self _ _
    · exact List.mem_cons_of_mem _ h

/-- A cluster label is valid when it occurs among the labels zipped with
the locations: exactly the labels for which `clusters` has a key. -/
def validLabel (locations : List Coordinate) (cluster_labels : List ℕ) (lbl : ℕ) : Prop :=
  lbl ∈ (locations.zip cluster_labels).map Prod.snd

theorem validLabel_of_get (locations : List Coordinate) (cluster_labels : List ℕ)
    (q : Coordinate) (lbl : ℕ) (hq : q ∈ locations)
    (hget : cluster_labels.get? (locations.indexOf q) = some lbl) :
    validLabel locations cluster_labels lbl := by
  have hi : locations.indexOf q < locations.length := List.indexOf_lt_length.mpr hq
  have hj : locations.indexOf q < cluster_labels.length := by
    rcases List.get?_eq_some.mp hget with ⟨hh, _⟩
    exact hh
  have hzl : locations.indexOf q < (locations.zip cluster_labels).length := by
    rw [List.length_zip]
    omega
  have hzget : (locations.zip cluster_labels).get ⟨locations.indexOf q, hzl⟩ =
      (locations.get ⟨locations.indexOf q, hi⟩, cluster_labels.get ⟨locations.indexOf q, hj⟩) := by
    simp [List.get_eq_getElem, List.getElem_zip]
  have hlblget : cluster_labels.get ⟨locations.indexOf q, hj⟩ = lbl := by
    rcases List.get?_eq_some.mp hget with ⟨hh, he⟩
    exact he
  refine List.mem_map.mpr ⟨(locations.zip cluster_labels).get ⟨locations.indexOf q, hzl⟩,
    List.get_mem _ _ hzl, ?_⟩
  rw [hzget, hlblget]

theorem validLabel_key (locations : List Coordinate) (cluster_labels : List ℕ) (lbl : ℕ)
    (h : validLabel locations cluster_labels lbl) :
    ∃ ms, dictLookup (buildClusters locations cluster_labels) lbl = some ms :=
  buildClusters_key_of_label locations cluster_labels lbl h

/-- Specification of the candidate-selection step of the cluster router:
with a valid current cluster id it never raises; the candidates are
unvisited locations; the returned cluster id stays valid; and under the
Staten Island lock-in premise the candidates are exactly the unvisited
Staten Island locations (in particular nonempty and all in Staten
Island). -/
theorem clusterCandidates_spec {β : Type} (locations : List Coordinate)
    (dist : Coordinate → Coordinate → β) (lt : β → β → Bool)
    (cluster_centers : ℕ → Coordinate) (cluster_labels : List ℕ)
    (visited : List Coordinate) (current : Coordinate) (cid : ℕ)
    (hcid : validLabel locations cluster_labels cid) :
    ∃ cands cid2,
      clusterCandidates locations dist lt cluster_centers
        (buildClusters locations cluster_labels) visited current cid =
        some (cands, cid2) ∧
      (∀ c ∈ cands, c ∈ locations ∧ c ∉ visited) ∧
      validLabel locations cluster_labels cid2 ∧
      (_get_borough current = "Staten Island" →
        (∃ si ∈ locations, _get_borough si = "Staten Island" ∧ si ∉ visited) →
        ((∃ q, q ∈ cands) ∧ ∀ c ∈ cands, _get_borough c = "Staten Island")) := by
  rw [clusterCandidates]
  by_cases hsibranch : _get_borough current = "Staten Island" ∧
      ((staten_island_coords locations).filter
        (fun c => decide (c ∉ visited))).isEmpty = false
  · rw [if_pos hsibranch]
    refine ⟨_, cid, rfl, ?_, hcid, ?_⟩
    · intro c hc
      rcases List.mem_filter.mp hc with ⟨hc1, hc2⟩
      exact ⟨(List.mem_filter.mp hc1).1, of_decide_eq_true hc2⟩
    · intro _ _
      constructor
      · rcases List.isEmpty_eq_false_iff_exists_mem.mp hsibranch.2 with ⟨q, hq⟩
        exact ⟨q, hq⟩
      · intro c hc
        rcases List.mem_filter.mp hc with ⟨hc1, _⟩
        exact of_decide_eq_true (List.mem_filter.mp hc1).2
  · rw [if_neg hsibranch]
    obtain ⟨ms, hms⟩ := validLabel_key locations cluster_labels cid hcid
    simp only [hms]
    by_cases hstay : (ms.filter (fun c => decide (c ∉ visited))).isEmpty = false
    · rw [if_pos hstay]
      refine ⟨_, cid, rfl, ?_, hcid, ?_⟩
      · intro c hc
        rcases List.mem_filter.mp hc with ⟨hc1, hc2⟩
        exact ⟨buildClusters_values_sub locations cluster_labels cid ms hms c hc1,
          of_decide_eq_true hc2⟩
      · intro hsi hexists
        exfalso
        apply hsibranch
        refine ⟨hsi, ?_⟩
        obtain ⟨si, hsiloc, hsib, hsinv⟩ := hexists
        rw [List.isEmpty_eq_false_iff_exists_mem]
        refine ⟨si, List.mem_filter.mpr ⟨?_, decide_eq_true hsinv⟩⟩
        exact List.mem_filter.mpr ⟨hsiloc, decide_eq_true hsib⟩
    · rw [if_neg hstay]
      by_cases hjump : (((buildClusters locations cluster_labels).filter
          (fun kv => kv.2.any (fun c => decide (c ∉ visited)))).map
            (fun kv => kv.1)).isEmpty = false
      · rw [if_pos hjump]
        have hne : (((buildClusters locations cluster_labels).filter
            (fun kv => kv.2.any (fun c => decide (c ∉ visited)))).map
              (fun kv => kv.1)) ≠ [] := by
          intro he
          rw [he] at hjump
          simp at hjump
        obtain ⟨ncid, hrun, hmem⟩ := find_nearest_cluster_spec dist lt cluster_centers current
          _ hne
        simp only [hrun]
        have hnvalid : validLabel locations cluster_labels ncid := by
          apply buildClusters_keys_sub locations cluster_labels
          rcases List.mem_map.mp hmem with ⟨kv, hkv, heq⟩
          exact List.mem_map.mpr ⟨kv, (List.mem_filter.mp hkv).1, heq⟩
        obtain ⟨ms2, hms2⟩ := validLabel_key locations cluster_labels ncid hnvalid
        simp only [hms2]
        refine ⟨_, ncid, rfl, ?_, hnvalid, ?_⟩
        · intro c hc
          rcases List.mem_filter.mp hc with ⟨hc1, hc2⟩
          exact ⟨buildClusters_values_sub locations cluster_labels ncid ms2 hms2 c hc1,
            of_decide_eq_true hc2⟩
        · intro hsi hexists
          exfalso
          apply hsibranch
          refine ⟨hsi, ?_⟩
          obtain ⟨si, hsiloc, hsib, hsinv⟩ := hexists
          rw [List.isEmpty_eq_false_iff_exists_mem]
          refine ⟨si, List.mem_filter.mpr ⟨?_, decide_eq_true hsinv⟩⟩
          exact List.mem_filter.mpr ⟨hsiloc, decide_eq_true hsib⟩
      · rw [if_neg hjump]
        refine ⟨_, cid, rfl, ?_, hcid, ?_⟩
        · intro c hc
          rcases List.mem_filter.mp hc with ⟨hc1, hc2⟩
          exact ⟨hc1, of_decide_eq_true hc2⟩
        · intro hsi hexists
          exfalso
          apply hsibranch
          refine ⟨hsi, ?_⟩
          obtain ⟨si, hsiloc, hsib, hsinv⟩ := hexists
          rw [List.isEmpty_eq_false_iff_exists_mem]
          refine ⟨si, List.mem_filter.mpr ⟨?_, decide_eq_true hsinv⟩⟩
          exact List.mem_filter.mpr ⟨hsiloc, decide_eq_true hsib⟩

theorem clusterLoop_succ {β : Type} (locations : List Coordinate)
    (dist : Coordinate → Coordinate → β) (lt : β → β → Bool)
    (distances : List (Coordinate × List (β × Coordinate)))
    (cluster_labels : List ℕ) (cluster_centers : ℕ → Coordinate)
    (clusters : List (ℕ × List Coordinate)) (fuel : ℕ)
    (visited : List Coordinate) (current : Coordinate) (steps : List RouteStep)
    (current_cluster_id : ℕ) :
    clusterLoop locations dist lt distances cluster_labels cluster_centers clusters
      (fuel + 1) visited current steps current_cluster_id =
      (if visited.length < locations.length then
        match clusterCandidates locations dist lt cluster_centers clusters
            visited current current_cluster_id with
        | none => none
        | some (candidates, cid1) =>
          match find_nearest_unvisited distances visited candidates current with
          | none => none
          | some primary =>
            match (match primary with
              | some c => some (some c)
              | none =>
                find_nearest_unvisited distances visited
                  (locations.filter (fun c => decide (c ∉ visited))) current) with
            | none => none
            | some none => some (current, steps)
            | some (some next_location) =>
              match (if next_location ∈ locations then
                  match listIndex locations next_location with
                  | some i => cluster_labels.get? i
                  | none => none
                else some cid1) with
              | none => none
              | some new_cluster_id =>
                clusterLoop locations dist lt distances cluster_labels cluster_centers
                  clusters fuel (visited ++ [next_location]) next_location
                  (steps ++ [⟨current, next_location⟩]) new_cluster_id
      else some (current, steps)) := rfl

/-- Main correctness of the cluster router's loop, mirroring
`greedyLoop_spec`: with a complete index, labels covering the locations
and a valid current cluster id, the loop returns a full simple trail and
respects the Staten Island lock-in. -/
theorem clusterLoop_spec {β : Type} (locations : List Coordinate)
    (dist : Coordinate → Coordinate → β) (lt : β → β → Bool)
    (distances : List (Coordinate × List (β × Coordinate)))
    (cluster_labels : List ℕ) (cluster_centers : ℕ → Coordinate)
    (hD : IndexComplete distances locations)
    (hlab : locations.length ≤ cluster_labels.length) (start : Coordinate) :
    ∀ (fuel : ℕ) (visited : List Coordinate) (current : Coordinate)
      (steps : List RouteStep) (cid : ℕ),
      visited.head? = some start →
      visited.getLast? = some current →
      steps = zipAdjacent visited →
      visited.Nodup →
      (∀ c ∈ visited, c ∈ locations) →
      siLockIn locations start steps →
      validLabel locations cluster_labels cid →
      locations.length - visited.length < fuel →
      ∃ endp fvisited,
        clusterLoop locations dist lt distances cluster_labels cluster_centers
          (buildClusters locations cluster_labels) fuel visited current steps cid =
          some (endp, zipAdjacent fvisited) ∧
        fvisited.head? = some start ∧ fvisited.getLast? = some endp ∧
        fvisited.Nodup ∧ (∀ c, c ∈ fvisited ↔ c ∈ locations) ∧
        siLockIn locations start (zipAdjacent fvisited) := by
  intro fuel
  induction fuel with
  | zero =>
    intro visited current steps cid _ _ _ _ _ _ _ hfu
    omega
  | succ fuel ih =>
    intro visited current steps cid hhead hlast hsteps hnodup hsub hsi hcid hfuel
    have hcurv : current ∈ visited := mem_of_getLast?_eq hlast
    have hcurl : current ∈ locations := hsub current hcurv
    rw [clusterLoop_succ]
    by_cases hguard : visited.length < locations.length
    · rw [if_pos hguard]
      obtain ⟨cands, cid1, hcc, hcands, hcid1, hsicands⟩ :=
        clusterCandidates_spec locations dist lt cluster_centers cluster_labels
          visited current cid hcid
      simp only [hcc]
      obtain ⟨nn, hnn, hnncomplete, hnnsub⟩ := hD current hcurl
      have hfu1 : find_nearest_unvisited distances visited cands current =
          some (scan_candidates visited cands nn) := by
        rw [find_nearest_unvisited, hnn]
      simp only [hfu1]
      cases hscan : scan_candidates visited cands nn with
      | some next =>
        obtain ⟨hnextc, hnextnv, d, hdmem⟩ := scan_candidates_some hscan
        have hnextloc : next ∈ locations := (hcands next hnextc).1
        -- the cluster id update succeeds and stays valid
        have hidx : listIndex locations next = some (locations.indexOf next) := by
          rw [listIndex, if_pos hnextloc]
        have hjlt : locations.indexOf next < cluster_labels.length :=
          lt_of_lt_of_le (List.indexOf_lt_length.mpr hnextloc) hlab
        have hget : cluster_labels.get? (locations.indexOf next) =
            some (cluster_labels.get ⟨locations.indexOf next, hjlt⟩) :=
          List.get?_eq_get hjlt
        have hvalid2 : validLabel locations cluster_labels
            (cluster_labels.get ⟨locations.indexOf next, hjlt⟩) :=
          validLabel_of_get locations cluster_labels next _ hnextloc hget
        have hnewsteps : steps ++ [⟨current, next⟩] = zipAdjacent (visited ++ [next]) := by
          rw [zipAdjacent_append visited current next hlast, hsteps]
        have hvis_eq : start :: steps.map RouteStep.coor_b = visited := by
          rw [hsteps]
          exact trail_coords visited start hhead
        have hnewsi : siLockIn locations start (steps ++ [⟨current, next⟩]) := by
          apply siLockIn_append locations start steps ⟨current, next⟩ (hsteps ▸ hsi)
          intro hcursi hex
          rw [hvis_eq] at hex
          obtain ⟨hne, hallsi⟩ := hsicands hcursi hex
          exact hallsi next hnextc
        obtain ⟨endp, fvisited, hrun, hfh, hfl, hfn, hfm, hfsi⟩ :=
          ih (visited ++ [next]) next (steps ++ [⟨current, next⟩])
            (cluster_labels.get ⟨locations.indexOf next, hjlt⟩)
            (head?_append_of_head? [next] hhead)
            (by simp)
            hnewsteps
            (by simp [List.nodup_append, hnodup, hnextnv])
            (by
              intro c hc
              rcases List.mem_append.mp hc with h1 | h1
              · exact hsub c h1
              · simp only [List.mem_singleton] at h1
                exact h1 ▸ hnextloc)
            hnewsi
            hvalid2
            (by
              rw [List.length_append, List.length_singleton]
              omega)
        refine ⟨endp, fvisited, ?_, hfh, hfl, hfn, hfm, hfsi⟩
        simp only [if_pos hnextloc, hidx, hget]
        exact hrun
      | none =>
        -- primary scan failed: the fallback scan over all unvisited locations
        have hfu2 : find_nearest_unvisited distances visited
            (locations.filter (fun c => decide (c ∉ visited))) current =
            some (scan_candidates visited
              (locations.filter (fun c => decide (c ∉ visited))) nn) := by
          rw [find_nearest_unvisited, hnn]
        simp only [hfu2]
        cases hscan2 : scan_candidates visited
            (locations.filter (fun c => decide (c ∉ visited))) nn with
        | some next =>
          obtain ⟨hnextc, hnextnv, d, hdmem⟩ := scan_candidates_some hscan2
          have hnextloc : next ∈ locations := (List.mem_filter.mp hnextc).1
          have hidx : listIndex locations next = some (locations.indexOf next) := by
            rw [listIndex, if_pos hnextloc]
          have hjlt : locations.indexOf next < cluster_labels.length :=
            lt_of_lt_of_le (List.indexOf_lt_length.mpr hnextloc) hlab
          have hget : cluster_labels.get? (locations.indexOf next) =
              some (cluster_labels.get ⟨locations.indexOf next, hjlt⟩) :=
            List.get?_eq_get hjlt
          have hvalid2 : validLabel locations cluster_labels
              (cluster_labels.get ⟨locations.indexOf next, hjlt⟩) :=
            validLabel_of_get locations cluster_labels next _ hnextloc hget
          have hnewsteps : steps ++ [⟨current, next⟩] = zipAdjacent (visited ++ [next]) := by
            rw [zipAdjacent_append visited current next hlast, hsteps]
          have hvis_eq : start :: steps.map RouteStep.coor_b = visited := by
            rw [hsteps]
            exact trail_coords visited start hhead
          have hnewsi : siLockIn locations start (steps ++ [⟨current, next⟩]) := by
            apply siLockIn_append locations start steps ⟨current, next⟩ (hsteps ▸ hsi)
            intro hcursi hex
            rw [hvis_eq] at hex
            obtain ⟨⟨q, hq⟩, hallsi⟩ := hsicands hcursi hex
            obtain ⟨hql, hqnv⟩ := hcands q hq
            have hqc : q ≠ current := fun he => hqnv (he ▸ hcurv)
            obtain ⟨d2, hd2⟩ := hnncomplete q hql hqc
            exact (scan_candidates_ne_none d2 hd2 hq hqnv hscan).elim
          obtain ⟨endp, fvisited, hrun, hfh, hfl, hfn, hfm, hfsi⟩ :=
            ih (visited ++ [next]) next (steps ++ [⟨current, next⟩])
              (cluster_labels.get ⟨locations.indexOf next, hjlt⟩)
              (head?_append_of_head? [next] hhead)
              (by simp)
              hnewsteps
              (by simp [List.nodup_append, hnodup, hnextnv])
              (by
                intro c hc
                rcases List.mem_append.mp hc with h1 | h1
                · exact hsub c h1
                · simp only [List.mem_singleton] at h1
                  exact h1 ▸ hnextloc)
              hnewsi
              hvalid2
              (by
                rw [List.length_append, List.length_singleton]
                omega)
          refine ⟨endp, fvisited, ?_, hfh, hfl, hfn, hfm, hfsi⟩
          simp only [if_pos hnextloc, hidx, hget]
          exact hrun
        | none =>
          -- break: all locations visited
          have hall : ∀ c ∈ locations, c ∈ visited := by
            intro q hq
            by_contra hqnv
            have hqc : q ≠ current := fun he => hqnv (he ▸ hcurv)
            obtain ⟨d2, hd2⟩ := hnncomplete q hq hqc
            exact scan_candidates_ne_none d2 hd2
              (List.mem_filter.mpr ⟨hq, decide_eq_true hqnv⟩) hqnv hscan2
          exact ⟨current, visited, by rw [hsteps], hhead, hlast, hnodup,
            fun c => ⟨fun hc => hsub c hc, fun hc => hall c hc⟩, hsteps ▸ hsi⟩
    · rw [if_neg hguard]
      have hge : locations.length ≤ visited.length := by omega
      have hperm : visited.Perm locations :=
        (List.subperm_of_subset hnodup (fun c hc => hsub c hc)).perm_of_length_le hge
      exact ⟨current, visited, by rw [hsteps], hhead, hlast, hnodup,
        fun c => ⟨fun hc => hperm.mem_iff.mp hc, fun hc => hperm.mem_iff.mpr hc⟩,
        hsteps ▸ hsi⟩

/-- Top-level spec of the cluster router for a start inside the location
set over a complete index with labels covering the locations: it returns
a route along a simple trail covering the distinct locations exactly and
respecting the Staten Island lock-in. -/
theorem cluster_calculate_shortest_path_spec {β : Type} (locations : List Coordinate)
    (dist : Coordinate → Coordinate → β) (lt : β → β → Bool)
    (cluster_labels : List ℕ) (cluster_centers : ℕ → Coordinate)
    (distances : List (Coordinate × List (β × Coordinate))) (start : Coordinate)
    (hD : IndexComplete distances locations) (hstart : start ∈ locations)
    (hlab : locations.length ≤ cluster_labels.length) :
    ∃ (endp : Coordinate) (fvisited : List Coordinate),
      cluster_calculate_shortest_path locations dist lt cluster_labels
          cluster_centers start distances =
        some ⟨start, endp, zipAdjacent fvisited⟩ ∧
      fvisited.head? = some start ∧ fvisited.getLast? = some endp ∧
      fvisited.Nodup ∧ (∀ c, c ∈ fvisited ↔ c ∈ locations) ∧
      siLockIn locations start (zipAdjacent fvisited) := by
  have hidx : listIndex locations start = some (locations.indexOf start) := by
    rw [listIndex, if_pos hstart]
  have hjlt : locations.indexOf start < cluster_labels.length :=
    lt_of_lt_of_le (List.indexOf_lt_length.mpr hstart) hlab
  have hget : cluster_labels.get? (locations.indexOf start) =
      some (cluster_labels.get ⟨locations.indexOf start, hjlt⟩) :=
    List.get?_eq_get hjlt
  have hvalid0 : validLabel locations cluster_labels
      (cluster_labels.get ⟨locations.indexOf start, hjlt⟩) :=
    validLabel_of_get locations cluster_labels start _ hstart hget
  obtain ⟨endp, fvisited, hrun, hfh, hfl, hfn, hfm, hfsi⟩ :=
    clusterLoop_spec locations dist lt distances cluster_labels cluster_centers
      hD hlab start (locations.length + 1) [start] start []
      (cluster_labels.get ⟨locations.indexOf start, hjlt⟩)
      (by simp) (by simp) rfl (List.nodup_singleton start)
      (by
        intro c hc
        simp only [List.mem_singleton] at hc
        exact hc ▸ hstart)
      (siLockIn_nil locations start)
      hvalid0
      (by simp; omega)
  refine ⟨endp, fvisited, ?_, hfh, hfl, hfn, hfm, hfsi⟩
  rw [cluster_calculate_shortest_path]
  simp only [hidx, hget]
  rw [hrun]

/-- C1 (amended): Staten Island lock-in holds for both routers: over a
complete distance index with a start in the point set (and, for the
cluster router, labels covering the locations), each router returns a
route in which every step leaving a Staten Island point while Staten
Island still has an unvisited member stays in Staten Island. -/
theorem c1_staten_island_lockin_both_routers {β : Type} (locations : List Coordinate)
    (dist : Coordinate → Coordinate → β) (lt : β → β → Bool)
    (cluster_labels : List ℕ) (cluster_centers : ℕ → Coordinate)
    (distances : List (Coordinate × List (β × Coordinate))) (start : Coordinate)
    (hD : IndexComplete distances locations) (hstart : start ∈ locations)
    (hlab : locations.length ≤ cluster_labels.length) :
    (∃ r, calculate_shortest_path locations start distances = some r ∧
      siLockIn locations start r.steps) ∧
    (∃ r, cluster_calculate_shortest_path locations dist lt cluster_labels
        cluster_centers start distances = some r ∧
      siLockIn locations start r.steps) := by
  constructor
  · obtain ⟨endp, fvisited, hrun, _, _, _, _, hfsi⟩ :=
      calculate_shortest_path_spec locations distances start hD hstart
    exact ⟨⟨start, endp, zipAdjacent fvisited⟩, hrun, hfsi⟩
  · obtain ⟨endp, fvisited, hrun, _, _, _, _, hfsi⟩ :=
      cluster_calculate_shortest_path_spec locations dist lt cluster_labels
        cluster_centers distances start hD hstart hlab
    exact ⟨⟨start, endp, zipAdjacent fvisited⟩, hrun, hfsi⟩

theorem c1_staten_island_witness :
    (∃ r, calculate_shortest_path [siA, siB, mhA] siA
        (calculate_distances unitDist floatLt dfltN [siA, siB, mhA]) = some r ∧
      siLockIn [siA, siB, mhA] siA r.steps) ∧
    (∃ r, cluster_calculate_shortest_path [siA, siB, mhA] unitDist floatLt
        [0, 0, 1] (fun _ => siA) siA
        (calculate_distances unitDist floatLt dfltN [siA, siB, mhA]) = some r ∧
      siLockIn [siA, siB, mhA] siA r.steps) :=
  c1_staten_island_lockin_both_routers [siA, siB, mhA] unitDist floatLt
    [0, 0, 1] (fun _ => siA)
    (calculate_distances unitDist floatLt dfltN [siA, siB, mhA]) siA
    (indexComplete_of_B _ _ (by decide)) (by decide) (by decide)

/-- C3 (amended): for at least two pairwise-distinct coordinates and a
start drawn from the set, both routers' routes over a complete distance
index are accepted by `check_route` (labels covering the locations for
the cluster router). -/
theorem c3_routes_pass_validator_both_routers {β : Type} (locations : List Coordinate)
    (dist : Coordinate → Coordinate → β) (lt : β → β → Bool)
    (cluster_labels : List ℕ) (cluster_centers : ℕ → Coordinate)
    (distances : List (Coordinate × List (β × Coordinate))) (start : Coordinate)
    (hnodup : locations.Nodup) (hlen : 2 ≤ locations.length)
    (hD : IndexComplete distances locations) (hstart : start ∈ locations)
    (hlab : locations.length ≤ cluster_labels.length) :
    (∃ r, calculate_shortest_path locations start distances = some r ∧
      check_route locations r = true) ∧
    (∃ r, cluster_calculate_shortest_path locations dist lt cluster_labels
        cluster_centers start distances = some r ∧
      check_route locations r = true) := by
  have hded : locations.dedup = locations := List.dedup_eq_self.mpr hnodup
  constructor
  · obtain ⟨endp, fvisited, hrun, hfh, hfl, hfn, hfm, _⟩ :=
      calculate_shortest_path_spec locations distances start hD hstart
    have hlenv : 2 ≤ fvisited.length := by
      have := (fvisited_perm_dedup locations fvisited hfn hfm).length_eq
      rw [hded] at this
      omega
    exact ⟨⟨start, endp, zipAdjacent fvisited⟩, hrun,
      check_route_of_trail locations fvisited start endp hfh hfl hfn hfm hlenv⟩
  · obtain ⟨endp, fvisited, hrun, hfh, hfl, hfn, hfm, _⟩ :=
      cluster_calculate_shortest_path_spec locations dist lt cluster_labels
        cluster_centers distances start hD hstart hlab
    have hlenv : 2 ≤ fvisited.length := by
      have := (fvisited_perm_dedup locations fvisited hfn hfm).length_eq
      rw [hded] at this
      omega
    exact ⟨⟨start, endp, zipAdjacent fvisited⟩, hrun,
      check_route_of_trail locations fvisited start endp hfh hfl hfn hfm hlenv⟩

theorem c3_validator_witness :
    (∃ r, calculate_shortest_path [mhA, mhB, bkC] mhB
        (calculate_distances unitDist floatLt dfltN [mhA, mhB, bkC]) = some r ∧
      check_route [mhA, mhB, bkC] r = true) ∧
    (∃ r, cluster_calculate_shortest_path [mhA, mhB, bkC] unitDist floatLt
        [1, 1, 2] (fun _ => mhA) mhB
        (calculate_distances unitDist floatLt dfltN [mhA, mhB, bkC]) = some r ∧
      check_route [mhA, mhB, bkC] r = true) :=
  c3_routes_pass_validator_both_routers [mhA, mhB, bkC] unitDist floatLt
    [1, 1, 2] (fun _ => mhA)
    (calculate_distances unitDist floatLt dfltN [mhA, mhB, bkC]) mhB
    (by decide) (by decide) (indexComplete_of_B _ _ (by decide)) (by decide) (by decide)
